import Mathlib

/-!
# RetroCompress-Lite: shallow embedding and verification

Shallow embedding of the codec library (MDK-RLE, LZF, Pletter v0.5, DAN1,
DAN3, ZX7, ZX0, BitBuster v1.2) translated from the JavaScript sources.
Bytes are `Nat` values kept below 256 by the same maskings the source
performs; byte buffers are `List Nat` / `Array Nat`; fallible operations
return `Except CodecError`.
-/

set_option maxRecDepth 10000

/-- Error kinds surfaced by the codecs (§7 of the design). `jsTypeError`
stands for a JavaScript runtime `TypeError` (e.g. property access on
`undefined`), which rejects the call just like a thrown codec error. -/
inductive CodecError where
  | inputTooLarge
  | truncated
  | invalidOffset
  | jsTypeError
  | optimizeFailed
  deriving DecidableEq, Repr

deriving instance DecidableEq for Except

/-! ## MDK-RLE (`src/js/codecs/mdkrle.js`) -/

namespace MdkRLE

/-- Length of the leading run of bytes equal to `b` in `l`. -/
def leadRun (b : Nat) : List Nat → Nat
  | [] => 0
  | x :: xs => if x = b then leadRun b xs + 1 else 0

/-- The inner `while (remainingRun > 0)` loop of the RLE flush. -/
def rleChunksGo (b : Nat) : Nat → Nat → List Nat
  | _, 0 => []
  | remaining, fuel + 1 =>
    if remaining = 0 then []
    else
      let chunkSize := min remaining 127
      (128 ||| (chunkSize - 1)) :: b :: rleChunksGo b (remaining - chunkSize) fuel

/-- Emit RLE packets for a run of `remaining` copies of byte `b`,
splitting at 127 as the encoder's inner `while (remainingRun > 0)` does
(each step removes at least one byte, so `remaining` steps suffice). -/
def rleChunks (b : Nat) (remaining : Nat) : List Nat :=
  rleChunksGo b remaining remaining

/-- The `while (offset < rawBuffer.length)` loop of `flushRaw`. -/
def flushRawGo : List Nat → Nat → List Nat
  | _, 0 => []
  | raw, fuel + 1 =>
    if raw = [] then []
    else
      let chunkSize := min raw.length 128
      (chunkSize - 1) :: raw.take chunkSize ++ flushRawGo (raw.drop chunkSize) fuel

/-- `flushRaw`: split the pending raw buffer into RAW packets of at most
128 bytes, each preceded by its control byte `chunkSize - 1`. -/
def flushRaw (raw : List Nat) : List Nat := flushRawGo raw raw.length

/-- The encoder's main scan loop: find the run at the cursor; runs of
three or more flush the raw buffer and become RLE packets, shorter runs
are absorbed into the raw buffer. -/
def compressLoop : List Nat → List Nat → Nat → List Nat
  | _, raw, 0 => flushRaw raw
  | [], raw, _ + 1 => flushRaw raw
  | b :: rest, raw, fuel + 1 =>
    let runLength := 1 + leadRun b rest
    if 3 ≤ runLength then
      flushRaw raw ++ rleChunks b runLength ++
        compressLoop (rest.drop (runLength - 1)) [] fuel
    else
      compressLoop rest (raw ++ [b]) fuel

/-- `MdkRLECodec.compress`. -/
def compress (inputData : List Nat) : List Nat :=
  if inputData = [] then [0xFF]
  else compressLoop inputData [] inputData.length ++ [0xFF]

/-- The packet loop of `decompress` (each packet consumes at least one
input byte). -/
def decodeGo : List Nat → Nat → Except CodecError (List Nat)
  | _, 0 => .ok []
  | [], _ + 1 => .ok []
  | controlByte :: rest, fuel + 1 =>
    if controlByte = 0xFF then .ok []
    else if controlByte < 0x80 then
      let length := controlByte + 1
      if rest.length < length then .error .truncated
      else do
        let tail ← decodeGo (rest.drop length) fuel
        return rest.take length ++ tail
    else
      match rest with
      | [] => .error .truncated
      | value :: rest' => do
        let length := (controlByte &&& 0x7F) + 1
        let tail ← decodeGo rest' fuel
        return List.replicate length value ++ tail

/-- `MdkRLECodec.decompress`. Fails on a truncated RAW or RLE packet. -/
def decompress (compressedData : List Nat) : Except CodecError (List Nat) :=
  decodeGo compressedData compressedData.length

end MdkRLE

/-! ## LZF, end-marker variant (`src/js/codecs/lzf.js`) -/

namespace LZF

/-- `INF` stands for JavaScript's `Infinity` in the DP cost array; no
reachable cost can get near it (costs are at most `1 + n + n`). -/
def INF : Nat := 1000000000

/-- A DP back-pointer: `op.isMatch`, covered `length`, match `offset`
(0 for literal runs), and predecessor position `from`. -/
structure Op where
  isMatch : Bool
  length : Nat
  offset : Nat
  src : Nat
  deriving Repr, DecidableEq

/-- The extension loop of the LZF match finder. -/
def matchLenGo (inp : Array Nat) (n p i : Nat) : Nat → Nat → Nat
  | l, 0 => l
  | l, fuel + 1 =>
    if i + l < n ∧ inp.getD (p + l) 0 = inp.getD (i + l) 0 ∧ l < 256 then
      matchLenGo inp n p i (l + 1) fuel
    else l

/-- Length of the match between positions `p` and `i`: the encoder's
`while (i+len < n && input[p+len] === input[i+len] && len < MAX_LENGTH)`. -/
def matchLen (inp : Array Nat) (n p i l : Nat) : Nat := matchLenGo inp n p i l (n + 1)

/-- One literal-run DP update at `i` for run length `len`. -/
def tryLiteral (i len : Nat) (st : Array Nat × Array (Option Op)) :
    Array Nat × Array (Option Op) :=
  let (dp, path) := st
  let cost := dp.getD i INF + (1 + len)
  if cost < dp.getD (i + len) INF then
    (dp.setD (i + len) cost, path.setD (i + len) (some ⟨false, len, 0, i⟩))
  else st

/-- One match DP update at `i` against source position `p`. -/
def tryMatch (inp : Array Nat) (n i p : Nat) (st : Array Nat × Array (Option Op)) :
    Array Nat × Array (Option Op) :=
  let (dp, path) := st
  let len := matchLen inp n p i 0
  if 3 ≤ len then
    let cost := dp.getD i INF + (if len ≤ 8 then 2 else 3)
    if cost < dp.getD (i + len) INF then
      (dp.setD (i + len) cost, path.setD (i + len) (some ⟨true, len, i - p, i⟩))
    else st
  else st

/-- The optimal-parse DP of `LZFCodec.compress`: literal runs up to 32
bytes and matches against every window position within `MAX_OFFSET`. -/
def runDP (inp : Array Nat) (n : Nat) : Array Nat × Array (Option Op) :=
  (List.range n).foldl
    (fun st i =>
      if st.1.getD i INF = INF then st
      else
        let st := (List.range' 1 32).foldl
          (fun st len => if i + len ≤ n then tryLiteral i len st else st) st
        let searchStart := i - 7936
        (List.range' searchStart (i - searchStart)).foldl
          (fun st p => tryMatch inp n i p st) st)
    (((Array.mkArray (n + 1) INF).setD 0 0), Array.mkArray (n + 1) none)

/-- Reconstruct the chosen operations by walking `path` from `n` back to
0 (`for (pos = n; pos > 0; pos = path[pos].from)`). -/
def walkPath (path : Array (Option Op)) : Nat → Nat → List Op
  | 0, _ => []
  | _, 0 => []
  | fuel + 1, pos =>
    match path.getD pos none with
    | none => []
    | some op => walkPath path fuel op.src ++ [op]

/-- Emit one operation as output bytes. -/
def emitOp (inp : Array Nat) (op : Op) : List Nat :=
  if op.isMatch then
    let storedOffset := op.offset - 1
    if op.length ≤ 8 then
      [((op.length - 2) <<< 5) ||| ((storedOffset >>> 8) &&& 0x1F), storedOffset &&& 0xFF]
    else
      [0xE0 ||| ((storedOffset >>> 8) &&& 0x1F), op.length - 9, storedOffset &&& 0xFF]
  else
    (op.length - 1) :: (List.range op.length).map (fun i => inp.getD (op.src + i) 0)

/-- `LZFCodec.compress`. -/
def compress (input : List Nat) : List Nat :=
  let inp := input.toArray
  let n := input.length
  let (_, path) := runDP inp n
  let operations := walkPath path (n + 1) n
  (operations.foldl (fun out op => out ++ emitOp inp op) []) ++ [0xFF]

/-- Sequential overlap-capable copy: push `output[srcIndex + k]` for
`k < len`, reading the freshly grown output (out-of-range reads give 0,
as a JavaScript `undefined` stored into a `Uint8Array` does). -/
def copyFrom (output : Array Nat) (srcIndex : Int) : Nat → Array Nat
  | 0 => output
  | len + 1 =>
    let v := if 0 ≤ srcIndex then output.getD srcIndex.toNat 0 else 0
    copyFrom (output.push v) (srcIndex + 1) len

/-- `LZFCodec.decompress` main loop; `pos` advances on every token, so
`input.length + 1` steps of fuel always suffice. -/
def decompressLoop (input : Array Nat) : Nat → Nat → Array Nat → Array Nat
  | 0, _, output => output
  | fuel + 1, pos, output =>
    if pos < input.size ∧ input.getD pos 0 ≠ 0xFF then
      let byte := input.getD pos 0
      let control := byte >>> 5
      if control = 0 then
        let len := (byte &&& 0x1F) + 1
        let output := (List.range len).foldl
          (fun out i => out.push (input.getD (pos + 1 + i) 0)) output
        decompressLoop input fuel (pos + 1 + len) output
      else if control = 7 then
        let len := input.getD (pos + 1) 0 + 9
        let storedOffset := ((byte &&& 0x1F) <<< 8) ||| input.getD (pos + 2) 0
        let copyPos : Int := (output.size : Int) - (storedOffset + 1)
        decompressLoop input fuel (pos + 3) (copyFrom output copyPos len)
      else
        let len := control + 2
        let storedOffset := ((byte &&& 0x1F) <<< 8) ||| input.getD (pos + 1) 0
        let copyPos : Int := (output.size : Int) - (storedOffset + 1)
        decompressLoop input fuel (pos + 2) (copyFrom output copyPos len)
    else output

/-- `LZFCodec.decompress`. -/
def decompress (input : List Nat) : List Nat :=
  (decompressLoop input.toArray (input.length + 1) 0 #[]).toList

end LZF

/-! ## Pletter v0.5 (`src/js/codecs/pletter.js`) -/

namespace Pletter

/-- `maxlen` table from the constructor:
`[128, 256, 640, 1152, 2176, 4224, 8320]`, indexed by `bl ∈ 0..6`. -/
def maxlen : List Nat := [128, 128 + 128, 512 + 128, 1024 + 128, 2048 + 128, 4096 + 128, 8192 + 128]

/-- One round of `initVarCost`: entries `v ∈ [cur, cur + r)` receive cost
`b`; then `b += 2`, `r *= 2` until `r = 65536` (16 rounds). `none` is an
entry the loop never wrote (`varcost[0]` and `v ≥ 65536`). -/
def varcostFrom (b r cur v : Nat) : Nat → Option Nat
  | 0 => none
  | fuel + 1 =>
    if v < cur then none
    else if v < cur + r then some b
    else varcostFrom (b + 2) (2 * r) (cur + r) v fuel

/-- `varcost[v]` as filled by `initVarCost`. -/
def varcost (v : Nat) : Option Nat := varcostFrom 1 1 1 v 16

/-- `getLen`'s guarded read
`cost_var !== undefined ? cost_var : 1000000` of `varcost[j - 1]`. -/
def varcostVal (j : Nat) : Nat := (varcost (j - 1)).getD 1000000

/-- Per-position metadata row: the run-length `reeks` and, per offset
subset `bl`, the best match length `clen` and its distance `cpos`. -/
structure Meta where
  reeks : Nat
  clen : Array Nat
  cpos : Array Nat
  deriving Repr

/-- Build `prev[i]` (hash-chain predecessor on the 2-byte key
`data[i] + 256 * data[i+1]`) exactly as `createMetadata`'s first loop. -/
def buildPrev (data : Array Nat) : Array Int :=
  (List.range data.size).foldl
    (fun (st : Array Int × (Nat → Int)) i =>
      let (prev, last) := st
      let index := data.getD i 0 + (if i + 1 < data.size then data.getD (i + 1) 0 * 256 else 0)
      (prev.push (last index), fun j => if j = index then (i : Int) else last j))
    (#[], fun _ => (-1 : Int))
  |>.1

/-- The `reeks` (run-length) backward scan of `createMetadata`. -/
def buildReeks (data : Array Nat) : Array Nat :=
  ((List.range data.size).reverse.foldl
    (fun (st : Array Nat × Int × Nat) i =>
      let (arr, r, t) := st
      if (data.getD i 0 : Int) = r then (arr.setD i (t + 1), r, t + 1)
      else (arr.setD i 1, (data.getD i 0 : Int), 1))
    (Array.mkArray data.size 0, -1, 0)).1

/-- The reeks-accelerated match extension
(`while (data[p + l] === data[i + l] && (i + l) < length)`). -/
def extendMatch (data : Array Nat) (reeks : Array Nat) (p i : Nat) : Nat → Nat → Nat
  | _, 0 => 0
  | l, fuel + 1 =>
    if data.getD (p + l) 0 = data.getD (i + l) 0 ∧ i + l < data.size then
      if 1 < reeks.getD (i + l) 0 then
        let j := min (reeks.getD (i + l) 0) (reeks.getD (p + l) 0)
        extendMatch data reeks p i (l + j) fuel
      else extendMatch data reeks p i (l + 1) fuel
    else l

/-- The chain walk of `createMetadata`'s inner `while ((p = prev[p]) !== -1)`
for subset `bl`, updating the running best `(clen, cpos)`. -/
def chainWalk (data : Array Nat) (prev : Array Int) (reeks : Array Nat) (ml i : Nat) :
    Int → Nat × Nat → Nat → Nat × Nat
  | _, best, 0 => best
  | p, best, fuel + 1 =>
    let p' := if 0 ≤ p then prev.getD p.toNat (-1) else (-1 : Int)
    if p' = -1 then best
    else if ml < i - p'.toNat then best
    else
      let l := extendMatch data reeks p'.toNat i 0 (data.size + 1)
      let best := if best.1 < l then (l, i - p'.toNat) else best
      chainWalk data prev reeks ml i p' best fuel

/-- One `bl` pass of `createMetadata`, producing this subset's
`(clen, cpos)` columns from the previous subset's. -/
def metaPass (data : Array Nat) (prev : Array Int) (reeks : Array Nat) (bl : Nat)
    (prevCols : Option (Array (Nat × Nat))) : Array (Nat × Nat) :=
  (List.range data.size).foldl
    (fun acc i =>
      let (c0, p0) : Nat × Nat := match prevCols with
        | none => (0, 0)
        | some cols => cols.getD i (0, 0)
      let pStart : Nat := match prevCols with
        | none => i
        | some _ => i - p0
      acc.push (chainWalk data prev reeks (maxlen.getD bl 0) i (pStart : Int) (c0, p0) (data.size + 1)))
    #[]

/-- `createMetadata`: `reeks` plus the seven `(clen, cpos)` columns. -/
def createMetadata (data : Array Nat) : Array (Array (Nat × Nat)) :=
  let prev := buildPrev data
  let reeks := buildReeks data
  (List.range 7).foldl
    (fun acc bl =>
      let prevCols := if bl = 0 then none else some (acc.getD (bl - 1) #[])
      acc.push (metaPass data prev reeks bl prevCols))
    #[]

/-- A `getLen` DP entry `(cost, mode, mlen)`. -/
structure P where
  cost : Nat
  mode : Nat
  mlen : Nat
  deriving Repr, DecidableEq

instance : Inhabited P := ⟨⟨0, 0, 0⟩⟩

/-- The inner `while (j > 1)` candidate scan of `getLen`: try lengths
`j, j-1, …, 2` at token cost `ccc + varcost[j-1] + p[i+j].cost`,
keeping the strictly cheaper `(kc, kmode, kl)`. -/
def scanLens (parr : Array P) (i ccc mode : Nat) : Nat → (Nat × Nat × Nat) → Nat × Nat × Nat
  | 0, best => best
  | 1, best => best
  | j + 2, best =>
    let cc := ccc + varcostVal (j + 2) + (parr.getD (i + (j + 2)) default).cost
    scanLens parr i ccc mode (j + 1) (if cc < best.1 then (cc, mode, j + 2) else best)

/-- `getLen`: the backward DP over positions `length-1 … 0`, with the
literal baseline `9 + p[i+1].cost`, the short-window candidates
(`clen[0]`, token cost 9) and the `q`-window candidates
(`clen[q]`, token cost 9 or `9 + q`). Returns `(p[0].cost, p)`. -/
def getLen (data : Array Nat) (meta : Array (Array (Nat × Nat))) (q : Nat) : Nat × Array P :=
  let n := data.size
  let cols0 := meta.getD 0 #[]
  let colsQ := meta.getD q #[]
  let parr := (List.range n).reverse.foldl
    (fun parr i =>
      let kc := 9 + (parr.getD (i + 1) default).cost
      let best := scanLens parr i 9 1 (cols0.getD i (0, 0)).1 (kc, 0, 0)
      let ccc := if q = 1 then 9 else 9 + q
      let best := scanLens parr i ccc 2 (colsQ.getD i (0, 0)).1 best
      parr.setD i ⟨best.1, best.2.1, best.2.2⟩)
    (Array.mkArray (n + 1) default)
  ((parr.getD 0 default).cost, parr)

/-- Total encoded DP cost of the input for offset-subset `q`. -/
def qCost (data : List Nat) (q : Nat) : Nat :=
  (getLen data.toArray (createMetadata data.toArray) q).1

/-- The `q` the encoder emits with: the strict-minimum fold over
`q ∈ 1..6` seeded with `minlen = length * 1000, minbl = 0`, then the
`minbl === 0` fallback to 1. -/
def chooseQ (data : List Nat) : Nat :=
  let meta := createMetadata data.toArray
  let r := (List.range' 1 6).foldl
    (fun (st : Nat × Nat) i =>
      let c := (getLen data.toArray meta i).1
      if c < st.1 then (c, i) else st)
    (data.length * 1000, 0)
  if r.2 = 0 ∧ 0 < data.length then 1 else r.2

/-- Bit-writer state of the Pletter emitter: output bytes written so far
(`dataDest[0 .. dataPos)`), the reserved bit-holder position `eventPos`,
and the pending bit accumulator. -/
structure WSt where
  dataDest : Array Nat
  eventPos : Nat
  pendingBits : Nat
  eventByte : Nat
  deriving Repr

/-- `_writeByte` / `_addData`. -/
def wByte (w : WSt) (v : Nat) : WSt := { w with dataDest := w.dataDest.push (v % 256) }

/-- `_claimEvent`: reserve the next output byte as the bit holder. -/
def claimEvent (w : WSt) : WSt :=
  { w with eventPos := w.dataDest.size, dataDest := w.dataDest.push 0 }

/-- `_addEvent`: backfill the reserved byte with the accumulated bits. -/
def addEvent (w : WSt) : WSt :=
  { w with dataDest := w.dataDest.setD w.eventPos w.eventByte, eventByte := 0, pendingBits := 0 }

/-- `_addBit`. -/
def addBit (w : WSt) (bit : Bool) : WSt :=
  let w := if w.pendingBits = 0 then claimEvent w else w
  let w := { w with eventByte := w.eventByte * 2 + (if bit then 1 else 0),
                    pendingBits := w.pendingBits + 1 }
  if w.pendingBits = 8 then addEvent w else w

/-- `_add3`: three bits of `value`, MSB first. -/
def add3 (w : WSt) (value : Nat) : WSt :=
  addBit (addBit (addBit w (value &&& 4 ≠ 0)) (value &&& 2 ≠ 0)) (value &&& 1 ≠ 0)

/-- The scan for the highest set bit in `_addVar` (`j = 32768; while
(!(i & j)) j /= 2`). -/
def topMask (i : Nat) : Nat → Nat → Nat
  | _, 0 => 1
  | j, fuel + 1 => if i &&& j ≠ 0 then j else topMask i (j / 2) fuel

/-- The emission loop of `_addVar` after the leading mask is found. -/
def addVarLoop (w : WSt) (i : Nat) : Nat → Nat → WSt
  | _, 0 => w
  | j, fuel + 1 =>
    if j ≤ 1 then addBit w false
    else
      let j' := j / 2
      let w := addBit w true
      let w := addBit w (i &&& j' ≠ 0)
      addVarLoop w i j' fuel

/-- `_addVar`: interlaced Elias-gamma of `i ≥ 1`. -/
def addVar (w : WSt) (i : Nat) : WSt := addVarLoop w i (topMask i 32768 16) 17

/-- The extra-bit masks emitted for a mode-2 (long) offset, per the
fall-through `switch (q)` in `save` (MSB first). -/
def extraMasks : Nat → List Nat
  | 6 => [4096, 2048, 1024, 512, 256, 128]
  | 5 => [2048, 1024, 512, 256, 128]
  | 4 => [1024, 512, 256, 128]
  | 3 => [512, 256, 128]
  | 2 => [256, 128]
  | _ => []

/-- The token-emission loop of `save` (`while (i < length)`), walking the
chosen parse `pakdata` by `i += mlen`. -/
def saveLoop (data : Array Nat) (meta : Array (Array (Nat × Nat))) (pak : Array P) (q : Nat) :
    Nat → Nat → WSt → WSt
  | 0, _, w => w
  | fuel + 1, i, w =>
    if i < data.size then
      let e := pak.getD i default
      if e.mode = 0 then
        let w := addBit w false
        let w := wByte w (data.getD i 0)
        saveLoop data meta pak q fuel (i + 1) w
      else if e.mode = 1 then
        let w := addBit w true
        let w := addVar w (e.mlen - 1)
        let j := ((meta.getD 0 #[]).getD i (0, 0)).2 - 1
        let w := wByte w j
        saveLoop data meta pak q fuel (i + e.mlen) w
      else if e.mode = 2 then
        let w := addBit w true
        let w := addVar w (e.mlen - 1)
        let j := ((meta.getD q #[]).getD i (0, 0)).2 - 1 - 128
        let w := wByte w (128 ||| (j &&& 127))
        let w := (extraMasks q).foldl (fun w m => addBit w (j &&& m ≠ 0)) w
        saveLoop data meta pak q fuel (i + e.mlen) w
      else w
    else w

/-- `save` followed by `_done`: header `q - 1` on 3 bits, the first byte,
the token stream, the 34 terminating one-bits, and the final bit flush. -/
def save (data : Array Nat) (meta : Array (Array (Nat × Nat))) (pak : Array P) (q : Nat) : Array Nat :=
  let w : WSt := ⟨#[], 0, 0, 0⟩
  let w := add3 w (q - 1)
  let w := wByte w (data.getD 0 0)
  let w := saveLoop data meta pak q (data.size + 1) 1 w
  let w := (List.range 34).foldl (fun w _ => addBit w true) w
  let w := if w.pendingBits ≠ 0 then
    addEvent { w with eventByte := w.eventByte * 2 ^ (8 - w.pendingBits) } else w
  w.dataDest

/-- `PletterCodec.compress`. -/
def compress (data : List Nat) : Except CodecError (List Nat) :=
  if data.length = 0 then .ok []
  else if 65536 < data.length then .error .inputTooLarge
  else
    let meta := createMetadata data.toArray
    let minbl := chooseQ data
    let pak := (getLen data.toArray meta minbl).2
    .ok (save data.toArray meta pak minbl).toList

/-- The decoder's long-offset extra-bit shift positions, per the
fall-through `switch (qValue)` in `decompress` (read order). -/
def extraShifts : Nat → List Nat
  | 7 => [13, 12, 11, 10, 9, 8, 7]
  | 6 => [12, 11, 10, 9, 8, 7]
  | 5 => [11, 10, 9, 8, 7]
  | 4 => [10, 9, 8, 7]
  | 3 => [9, 8, 7]
  | 2 => [8, 7]
  | _ => []

/-- The decoder's reading of a long offset (`offset & 0x80` set): strip
the top bit, OR each extra bit at its shift, then `offset += 128` and
`offset += 1` (`decompress`, the `if (offset & 0x80)` branch). -/
def readLongOffset (q B : Nat) (bits : List Bool) : Nat :=
  let offset := B &&& 0x7F
  let offset := (List.zip (extraShifts q) bits).foldl
    (fun off (p : Nat × Bool) => off ||| ((if p.2 then 1 else 0) <<< p.1)) offset
  offset + 128 + 1

/-- The encoder's mode-2 emission of a long offset with stored value
`j = cpos - 1 - 128`: the byte `128 | (j & 127)` and the extra bits
(`save`, `case 2`). -/
def emitLongOffset (q j : Nat) : Nat × List Bool :=
  (128 ||| (j &&& 127), (extraMasks q).map (fun m => j &&& m ≠ 0))

/-- Modelled from the spec: the claim's long-offset formula — "if
`B ≥ 128` the offset is `((B & 0x7F) | (extraBits << 7)) + 1`". -/
def claimLongOffset (B extraBits : Nat) : Nat :=
  ((B &&& 0x7F) ||| (extraBits <<< 7)) + 1

end Pletter

/-! ## DAN1 (`src/js/codecs/dan1.js`) -/

namespace DAN1

/-- Constants from the constructor (default `maxSize = 512 * 1024`):
`MAX_OFFSET1 = 2`, `MAX_OFFSET2 = 18`, `MAX_OFFSET3 = 274`,
`MAX_OFFSET = 4370`, `RLE_MIN = 27`. -/
def MAX : Nat := 512 * 1024

/-- Bit-writer state: the output built so far and the current bit-holder
byte (`bit_mask`, `bit_index`). -/
structure W where
  dest : Array Nat
  bitMask : Nat
  bitIndex : Nat
  deriving Repr

/-- `_writeByte`. -/
def wByte (w : W) (v : Nat) : W := { w with dest := w.dest.push (v % 256) }

/-- `_writeBit`: claim a fresh bit-holder byte when the mask is spent,
set the bit, shift the mask. -/
def wBit (w : W) (bit : Bool) : W :=
  let w := if w.bitMask = 0 then
    { dest := w.dest.push 0, bitMask := 128, bitIndex := w.dest.size }
  else w
  let w := if bit then
    { w with dest := w.dest.setD w.bitIndex (w.dest.getD w.bitIndex 0 ||| w.bitMask) }
  else w
  { w with bitMask := w.bitMask / 2 }

/-- The `while (mask > 1) { mask >>= 1; writeBit(value & mask); }` loop
of `_writeBits`. -/
def wBitsGo (w : W) (value : Nat) : Nat → Nat → W
  | _, 0 => w
  | mask, fuel + 1 =>
    if 1 < mask then wBitsGo (wBit w (value &&& (mask / 2) ≠ 0)) value (mask / 2) fuel
    else w

/-- `_writeBits value size`: MSB-first bits `size-1 … 0` of `value`. -/
def wBits (w : W) (value size : Nat) : W := wBitsGo w value (2 ^ size) (size + 1)

/-- The leading-zeros loop of `_writeEliasGamma`
(`for (i = 2; i <= value; i <<= 1) writeBit(0)`), returning the final `i`. -/
def egZeros (w : W) (value : Nat) : Nat → Nat → W × Nat
  | i, 0 => (w, i)
  | i, fuel + 1 =>
    if i ≤ value then egZeros (wBit w false) value (2 * i) fuel else (w, i)

/-- The payload loop of `_writeEliasGamma`
(`while ((i >>= 1) > 0) writeBit(value & i)`). -/
def egPayload (w : W) (value : Nat) : Nat → Nat → W
  | _, 0 => w
  | i, fuel + 1 =>
    let i' := i / 2
    if i' = 0 then w
    else egPayload (wBit w (value &&& i' ≠ 0)) value i' fuel

/-- `_writeEliasGamma` for `value ≥ 1`. -/
def writeEliasGamma (w : W) (value : Nat) : W :=
  let (w, i) := egZeros w value 2 40
  egPayload w value i 40

/-- `_writeOffset`: the tiered offset coding, with outer selector bits
suppressed for `optionLen ≤ 2` exactly as in the source. -/
def writeOffset (w : W) (offset optionLen : Nat) : W :=
  let value := offset - 1
  if 274 ≤ value then
    let w := wBit w true
    let value := value - 274
    let w := wBits w (value / 256) 4
    wByte w (value % 256)
  else if 18 ≤ value then
    let w := if 2 < optionLen then wBit w false else w
    let w := wBit w true
    wByte w (value - 18)
  else if 2 ≤ value then
    let w := if 2 < optionLen then wBit w false else w
    let w := if 1 < optionLen then wBit w false else w
    let w := wBit w true
    wBits w (value - 2) 4
  else
    let w := if 2 < optionLen then wBit w false else w
    let w := if 1 < optionLen then wBit w false else w
    let w := wBit w false
    wBits w value 1

/-- `_writeDoublet`: flag 0, gamma(length), tiered offset. -/
def writeDoublet (w : W) (length offset : Nat) : W :=
  writeOffset (writeEliasGamma (wBit w false) length) offset length

/-- `_writeLiteralsLength`: flag 0, 16 zero bits, a 1, then
`length - 27` as a byte. -/
def writeLiteralsLength (w : W) (length : Nat) : W :=
  wByte (wBit (wBits (wBit w false) 0 16) true) (length - 27)

/-- `_writeLiteral`: flag 1 then the byte. -/
def writeLiteral (w : W) (c : Nat) : W := wByte (wBit w true) c

/-- `_writeEnd`: flag 0, 16 zero bits, a 0. -/
def writeEnd (w : W) : W := wBit (wBits (wBit w false) 0 16) false

/-- The halving loop of `_eliasGammaBits`. -/
def eliasGammaBitsGo : Nat → Nat → Nat
  | _, 0 => 1
  | value, fuel + 1 => if value ≤ 1 then 1 else 2 + eliasGammaBitsGo (value / 2) fuel

/-- `_eliasGammaBits`: `bits = 1; while (value > 1) { bits += 2; value >>= 1; }`. -/
def eliasGammaBits (value : Nat) : Nat := eliasGammaBitsGo value value

/-- `_countBits`: exact emitted size of gamma(len) plus the offset tier. -/
def countBits (offset len : Nat) : Nat :=
  let bits := 1 + eliasGammaBits len
  if len = 1 then bits + 1 + (if 2 < offset then 4 else 1)
  else if len = 2 then
    bits + 1 + (if 18 < offset then 8 else 1 + (if 2 < offset then 4 else 1))
  else
    bits + 1 + (if 274 < offset then 12
      else 1 + (if 18 < offset then 8 else 1 + (if 2 < offset then 4 else 1)))

/-- An optimal-parse entry `{ bits, offset, len }`. -/
structure O where
  bits : Nat
  offset : Nat
  len : Nat
  deriving Repr, DecidableEq

instance : Inhabited O := ⟨⟨0x7fffffff, 0, 0⟩⟩

/-- The inner extension loop over `len = 2, 3, …` at one chain node:
update `optimals[i]` (carried as `optI`) and `best_len`, stop when the
match cannot be extended. Returns `(optI, best_len, len)`. -/
def innerLen (src : Array Nat) (optimals : Array O) (i offset : Nat) :
    Nat → Nat → O → Nat → O × Nat × Nat
  | len, bestLen, optI, 0 => (optI, bestLen, len)
  | len, bestLen, optI, fuel + 1 =>
    let (optI, bestLen) :=
      if bestLen < len then
        if ¬(len = 2 ∧ 274 < offset) then
          let cost := (optimals.getD (i - len) default).bits + countBits offset len
          (if cost < optI.bits then ⟨cost, offset, len⟩ else optI, len)
        else (optI, bestLen)
      else (optI, bestLen)
    if i < offset + len ∨ src.getD (i - len) 0 ≠ src.getD (i - len - offset) 0 then
      (optI, bestLen, len)
    else if 65535 ≤ len then (optI, bestLen, len + 1)
    else innerLen src optimals i offset (len + 1) bestLen optI fuel

/-- The skip-step heuristic's inner scan
(`while (p !== -1) { … if (steps === len) { pos = p; break; } … }`),
returning the final `p` and the possibly fast-forwarded `pos`. -/
def skipScan (prevArr : Array Int) (i len : Nat) (pos : Int) :
    Int → Nat → Nat → Int × Int
  | p, _, 0 => (p, pos)
  | p, steps, fuel + 1 =>
    if p = -1 then (p, pos)
    else if 4370 < i - p.toNat then (p, pos)
    else if steps + 1 = len then (p, p)
    else skipScan prevArr i len pos (prevArr.getD p.toNat (-1)) (steps + 1) fuel

/-- The hash-chain walk of the DAN1 DP
(`while (pos !== -1 && best_len < this.MAX_LEN)`), including the skip
heuristic. -/
def chainLoop (src : Array Nat) (prevArr : Array Int) (optimals : Array O) (i : Nat) :
    Int → Nat → O → Nat → O
  | _, _, optI, 0 => optI
  | pos, bestLen, optI, fuel + 1 =>
    if pos = -1 ∨ 65535 ≤ bestLen then optI
    else
      let offset := i - pos.toNat
      if 4370 < offset then optI
      else
        let (optI, bestLen, len) := innerLen src optimals i offset 2 bestLen optI (i + 2)
        let next := prevArr.getD pos.toNat (-1)
        if 6 < len ∧ len + 1 = bestLen ∧ next ≠ -1 ∧ pos = next + 1 then
          let (p, pos') := skipScan prevArr i len pos next 1 (i + 2)
          if p = -1 then optI
          else chainLoop src prevArr optimals i (prevArr.getD pos'.toNat (-1)) bestLen optI fuel
        else
          chainLoop src prevArr optimals i (prevArr.getD pos.toNat (-1)) bestLen optI fuel

/-- One DP step at position `i ≥ 1`: literal baseline, optional RAW
(RLE-literal) block candidates, first-match single-byte candidate, then
the chain walk; finally the chain is extended with `i`. -/
def dpStep (src : Array Nat) (bRLE : Bool) (st : Array O × (Nat → Int) × Array Int) (i : Nat) :
    Array O × (Nat → Int) × Array Int :=
  let (optimals, heads, prevArr) := st
  -- literal at i
  let optI : O := ⟨(optimals.getD (i - 1) default).bits + 1 + 8, 0, 1⟩
  -- RAW literal block (RLE mode)
  let optI :=
    if bRLE ∧ 27 ≤ i then
      let j := min (256 + 27) i
      ((List.range' 27 (j - 26)).reverse).foldl
        (fun (optI : O) k =>
          let cost := (optimals.getD (i - k) default).bits + (1 + 16 + 1 + 8) + k * 8
          if optI.bits > cost then ⟨cost, 0, k⟩ else optI)
        optI
    else optI
  -- single-byte match, first hit only
  let limit1 := min 18 i
  let optI :=
    match (List.range' 1 limit1).find? (fun k => src.getD i 0 = src.getD (i - k) 0) with
    | some k =>
      let cost := (optimals.getD (i - 1) default).bits + countBits k 1
      if cost < optI.bits then ⟨cost, k, 1⟩ else optI
    | none => optI
  -- hash-chain matches of length ≥ 2
  let key := ((src.getD (i - 1) 0) <<< 8 ||| src.getD i 0) % 65536
  let optI := chainLoop src prevArr optimals i (heads key) 1 optI (i + 2)
  let optimals := optimals.setD i optI
  let prevArr := prevArr.setD i (heads key)
  (optimals, fun k => if k = key then (i : Int) else heads k, prevArr)

/-- `_cleanupOptimals`: zero the entries covered by each chosen token so
the emitter can advance linearly. -/
def cleanup (optimals : Array O) : Nat → Nat → Array O
  | _, 0 => optimals
  | i, fuel + 1 =>
    if 1 < i then
      let len := (optimals.getD i default).len
      let optimals := ((List.range' (i - len + 1) (len - 1))).foldl
        (fun (o : Array O) j => o.setD j ⟨(o.getD j default).bits, 0, 0⟩) optimals
      cleanup optimals (i - len) fuel
    else optimals

/-- `_writeLZStream`: first byte literally, then each surviving token. -/
def writeLZStream (src : Array Nat) (optimals : Array O) (n : Nat) : List Nat :=
  let w : W := ⟨#[], 0, 0⟩
  let w := wByte w (src.getD 0 0)
  let w := (List.range' 1 (n - 1)).foldl
    (fun w i =>
      let opt := optimals.getD i default
      if opt.len = 0 then w
      else
        let start := i - opt.len + 1
        if opt.offset = 0 then
          if opt.len = 1 then writeLiteral w (src.getD start 0)
          else
            let w := writeLiteralsLength w opt.len
            (List.range opt.len).foldl (fun w k => wByte w (src.getD (start + k) 0)) w
        else writeDoublet w opt.len opt.offset)
    w
  (writeEnd w).dest.toList

/-- The whole encoder after the size gate: DP, cleanup, emission. -/
def compressBody (input : List Nat) (bRLE : Bool) : List Nat :=
  let n := input.length
  let src := input.toArray
  let optimals := (Array.mkArray n default).setD 0 ⟨8, 0, 1⟩
  let st := (List.range' 1 (n - 1)).foldl (dpStep src bRLE)
    (optimals, fun _ => (-1 : Int), Array.mkArray n (-1 : Int))
  let optimals := cleanup st.1 (n - 1) n
  writeLZStream src optimals n

/-- `DAN1Codec.compress` (options: `rle`). -/
def compress (input : List Nat) (bRLE : Bool) : Except CodecError (List Nat) :=
  if input.length = 0 then .ok []
  else if MAX < input.length then .error .inputTooLarge
  else .ok (compressBody input bRLE)

/-- Bit-reader state over the (zero-padded) source buffer. -/
structure R where
  src : Array Nat
  indexSrc : Nat
  bitMask : Nat
  bitIndex : Nat
  deriving Repr

/-- `_readByte`. -/
def rByte (r : R) : Nat × R :=
  (r.src.getD r.indexSrc 0 % 256, { r with indexSrc := r.indexSrc + 1 })

/-- `_readBit`: claim a fresh byte as bitfield when the mask is spent. -/
def rBit (r : R) : Bool × R :=
  let r := if r.bitMask = 0 then
    { r with bitMask := 128, bitIndex := r.indexSrc, indexSrc := r.indexSrc + 1 }
  else r
  (r.src.getD r.bitIndex 0 &&& r.bitMask ≠ 0, { r with bitMask := r.bitMask / 2 })

/-- `_readBits n` (MSB first). -/
def rBits (r : R) (n : Nat) : Nat × R :=
  (List.range n).foldl
    (fun (st : Nat × R) _ =>
      let (b, r) := rBit st.2
      ((st.1 <<< 1) ||| (if b then 1 else 0), r))
    (0, r)

/-- The bits produced by `n` successive `_readBit` calls, with the final
reader state. -/
def rBitsList (r : R) : Nat → List Bool × R
  | 0 => ([], r)
  | n + 1 =>
    let (b, r') := rBit r
    let (bs, r'') := rBitsList r' n
    (b :: bs, r'')

/-- The counting loop of `_readEliasGamma`
(`while (counter < 17) { b = readBit(); counter++; if (b === 1) break; }`). -/
def egLoop : R → Nat → Nat × R
  | r, 0 => (17, r)
  | r, fuel + 1 =>
    let (b, r') := rBit r
    if b then (17 - fuel, r') else egLoop r' fuel

/-- The payload reconstruction of `_readEliasGamma`
(`for (i = 1; i < counter; i++) value = (value << 1) | readBit()`). -/
def egValue (r : R) (counter : Nat) : Nat × R :=
  (List.range' 1 (counter - 1)).foldl
    (fun (st : Nat × R) _ =>
      let (b, r') := rBit st.2
      ((st.1 <<< 1) ||| (if b then 1 else 0), r'))
    (1, r)

/-- `_readEliasGamma`: returns 0 after 17 reads (the RAW/END sentinel),
otherwise reconstructs the value from `counter - 1` payload bits. -/
def readEliasGamma (r : R) : Nat × R :=
  let (counter, r') := egLoop r 17
  if 17 ≤ counter then (0, r')
  else egValue r' counter

/-- `_readOffset optionLen`: returns the encoded `offset - 1` value. -/
def readOffset (r : R) (optionLen : Nat) : Nat × R :=
  let step3 : R → Nat × R := fun r =>
    let (b, r) := rBit r
    if b then
      let (nib, r) := rBits r 4
      (nib + 2, r)
    else
      let (b2, r) := rBit r
      (if b2 then 1 else 0, r)
  let step2 : R → Nat × R := fun r =>
    let (b, r) := rBit r
    if b then
      let (by8, r) := rByte r
      (by8 + 18, r)
    else step3 r
  if 2 < optionLen then
    let (b, r) := rBit r
    if b then
      let (nib, r) := rBits r 4
      let (lo, r) := rByte r
      (((nib + 1) <<< 8) + lo + 18, r)
    else if 1 < optionLen then step2 r else step3 r
  else if 1 < optionLen then step2 r
  else step3 r

/-- The decoder's token loop (`while (this.index_src <= compressed.length)`). -/
def decodeLoop (len : Nat) : Nat → R → Array Nat → Except CodecError (Array Nat)
  | 0, _, dest => .ok dest
  | fuel + 1, r, dest =>
    if r.indexSrc ≤ len then
      let (b, r) := rBit r
      if b then
        let (c, r) := rByte r
        decodeLoop len fuel r (dest.push c)
      else
        let (glen, r) := readEliasGamma r
        if glen ≠ 0 then
          let (value, r) := readOffset r glen
          if (dest.size : Int) - value - 1 < 0 then .error .invalidOffset
          else
            let srcFrom := dest.size - value - 1
            let dest := (List.range glen).foldl
              (fun (d : Array Nat) k => d.push (d.getD (srcFrom + k) 0)) dest
            decodeLoop len fuel r dest
        else
          let (b2, r) := rBit r
          if b2 then
            let (stored, r) := rByte r
            let rleLen := stored + 27
            let (r, dest) := (List.range rleLen).foldl
              (fun (st : R × Array Nat) _ =>
                let (c, r) := rByte st.1
                (r, st.2.push c))
              (r, dest)
            decodeLoop len fuel r dest
          else .ok dest
    else .ok dest

/-- `DAN1Codec.decompress`. -/
def decompress (compressed : List Nat) : Except CodecError (List Nat) :=
  if compressed.length = 0 then .ok []
  else
    let r : R := ⟨compressed.toArray, 0, 0, 0⟩
    let (c, r) := rByte r
    (decodeLoop compressed.length (8 * compressed.length + 17) r #[c]).map Array.toList

end DAN1

/-! ## DAN3 (`src/unnamed/part_000`, `DAN3Codec`) -/

namespace DAN3

/-- `this.MAX = 256 * 1024` from the DAN3 constructor. -/
def MAX : Nat := 256 * 1024

/-- `golomb_gamma_bits`. -/
def golombGammaBits (value : Nat) : Nat :=
  go (value + 1) 0 33
where
  /-- `value++; while (value > 1) { bits += 2; value >>= 1; }` -/
  go : Nat → Nat → Nat → Nat
    | _, bits, 0 => bits
    | v, bits, fuel + 1 => if 1 < v then go (v / 2) (bits + 2) fuel else bits

/-- `count_bits(offset, len)` with the lane's third-tier width
`b3 = BIT_OFFSET_MIN + lane` (only read when `offset > MAX_OFFSET2`). -/
def countBits (b3 offset len : Nat) : Nat :=
  let bits := 1 + golombGammaBits len
  if len = 1 then bits + 1 + (if 1 < offset then 1 else 0)
  else bits + 1 + (if 288 < offset then 1 + b3 else if 32 < offset then 8 else 1 + 5)

/-- One lane's `(bits, offset, len)` triple; offsets live in a
`Uint16Array` and lengths in a `Uint8Array`, so stores are masked. -/
structure Lane where
  bits : Nat
  offset : Nat
  len : Nat
  deriving Repr, DecidableEq

instance : Inhabited Lane := ⟨⟨0x7FFFFFFF, 0, 0⟩⟩

/-- All eight subset lanes of one `optimals[index]` entry. -/
abbrev Entry := Array Lane

instance : Inhabited Entry := ⟨Array.mkArray 8 default⟩

/-- `update_optimal(index, len, offset)`: walk lanes `7 … 0`, breaking
once `offset` exceeds the lane's `MAX_OFFSET3 = 2^(9+lane) + 288`. -/
def updateOptimal (optimals : Array Entry) (index len offset : Nat) : Array Entry :=
  let entry := go (optimals.getD index default) 8
  optimals.setD index entry
where
  go (entry : Entry) : Nat → Entry
    | 0 => entry
    | fuel + 1 =>
      let i := fuel
      if offset = 0 then
        let entry :=
          if 0 < index then
            if len = 1 then
              entry.setD i ⟨(((optimals.getD (index - 1) default).getD i default).bits + 1 + 8) % 2 ^ 32, 0, 1⟩
            else
              let cost := ((optimals.getD (index - len) default).getD i default).bits + 1 + 7 + 1 + 8 + len * 8
              if (entry.getD i default).bits > cost then
                entry.setD i ⟨cost % 2 ^ 32, 0, len % 256⟩
              else entry
          else entry.setD i ⟨8, 0, 1⟩
        go entry fuel
      else
        if 32 < offset ∧ 2 ^ (9 + i) + 288 < offset then entry
        else
          let cost := ((optimals.getD (index - len) default).getD i default).bits
            + countBits (9 + i) offset len
          let entry :=
            if (entry.getD i default).bits > cost then
              entry.setD i ⟨cost % 2 ^ 32, offset % 2 ^ 16, len % 256⟩
            else entry
          go entry fuel

/-- The inner extension loop of `findMatches`
(`for (len = 2; len <= MAX_GAMMA; len++)`). -/
def innerLen (src : Array Nat) (pos offset : Nat) : Nat → Array Entry → Nat → Array Entry
  | _, optimals, 0 => optimals
  | len, optimals, fuel + 1 =>
    let optimals := updateOptimal optimals pos len offset
    if pos < offset + len ∨ src.getD (pos - len) 0 ≠ src.getD (pos - len - offset) 0 then
      optimals
    else if 254 ≤ len then optimals
    else innerLen src pos offset (len + 1) optimals fuel

/-- The chain walk of `findMatches`; returns the updated optimals and
whether the chain was flushed (`offset > MAX_OFFSET`). -/
def chainWalk (src : Array Nat) (pos : Nat) : List Nat → Array Entry → Array Entry × Bool
  | [], optimals => (optimals, false)
  | p :: rest, optimals =>
    let offset := pos - p
    if 65824 < offset then (optimals, true)
    else chainWalk src pos rest (innerLen src pos offset 2 optimals 256)

/-- `findMatches(pos)` (with `bFAST = false`): length-1 candidates in the
window `MAX_OFFSET0 = 3`, the hash-chain walk, then the chain insert. -/
def findMatches (src : Array Nat) (st : Array Entry × (Nat → List Nat)) (pos : Nat) :
    Array Entry × (Nat → List Nat) :=
  let (optimals, chains) := st
  let maxSingleOffset := min 3 pos
  let optimals := (List.range' 1 maxSingleOffset).foldl
    (fun optimals k =>
      if src.getD pos 0 = src.getD (pos - k) 0 then updateOptimal optimals pos 1 k
      else optimals)
    optimals
  let matchIndex := ((src.getD (pos - 1) 0 % 256) <<< 8) ||| (src.getD pos 0 % 256)
  let (optimals, flushed) := chainWalk src pos (chains matchIndex) optimals
  let newChain := pos :: (if flushed then [] else chains matchIndex)
  (optimals, fun k => if k = matchIndex then newChain else chains k)

/-- `cleanup_optimals(subset)`. -/
def cleanup (subset : Nat) (optimals : Array Entry) : Nat → Nat → Array Entry
  | _, 0 => optimals
  | i, fuel + 1 =>
    if 1 < i then
      let len := ((optimals.getD i default).getD subset default).len
      let optimals := (List.range' (i - len + 1) (len - 1)).foldl
        (fun (o : Array Entry) j =>
          let e := o.getD j default
          o.setD j (e.setD subset ⟨(e.getD subset default).bits, 0, 0⟩))
        optimals
      cleanup subset optimals (i - len) fuel
    else optimals

/-- `write_golomb_gamma(value)`: `value + 1` with the zero loop starting
at 4. -/
def writeGolombGamma (w : DAN1.W) (value : Nat) : DAN1.W :=
  let v := value + 1
  let (w, i) := DAN1.egZeros w v 4 40
  DAN1.egPayload w v i 40

/-- `write_offset(value, option)` for DAN3 with third-tier width `b3`. -/
def writeOffset (w : DAN1.W) (b3 offset option : Nat) : DAN1.W :=
  let value := offset - 1
  if option = 1 then
    if 1 ≤ value then DAN1.wBits (DAN1.wBit w true) (value - 1) 1
    else DAN1.wBits (DAN1.wBit w false) value 0
  else
    if 288 ≤ value then
      let w := DAN1.wBit (DAN1.wBit w true) true
      let value := value - 288
      DAN1.wByte (DAN1.wBits w (value / 256) (b3 - 8)) (value % 256)
    else if 32 ≤ value then
      DAN1.wByte (DAN1.wBit w false) ((value - 32) % 256)
    else
      DAN1.wBits (DAN1.wBit (DAN1.wBit w true) false) value 5

/-- `write_doublet`. -/
def writeDoublet (w : DAN1.W) (b3 length offset : Nat) : DAN1.W :=
  writeOffset (writeGolombGamma (DAN1.wBit w false) length) b3 offset length

/-- `write_literals_length` (RAW block header, `RAW_MIN = 1`). -/
def writeLiteralsLength (w : DAN1.W) (length : Nat) : DAN1.W :=
  DAN1.wByte (DAN1.wBit (DAN1.wBits (DAN1.wBit w false) 0 7) true) (length - 1)

/-- `write_end`. -/
def writeEnd (w : DAN1.W) : DAN1.W :=
  DAN1.wBit (DAN1.wBits (DAN1.wBit w false) 0 7) false

/-- `write_lz(subset)`: the `0xFE` preamble on `subset + 1` bits, the
first byte, the surviving tokens, the end marker. -/
def writeLZ (src : Array Nat) (optimals : Array Entry) (n subset : Nat) : List Nat :=
  let w : DAN1.W := ⟨#[], 0, 0⟩
  let w := DAN1.wBits w 0xFE (subset + 1)
  let w := DAN1.wByte w (src.getD 0 0)
  let w := (List.range' 1 (n - 1)).foldl
    (fun w i =>
      let lane := (optimals.getD i default).getD subset default
      if lane.len = 0 then w
      else
        let index := i - lane.len + 1
        if lane.offset = 0 then
          if lane.len = 1 then DAN1.wByte (DAN1.wBit w true) (src.getD index 0)
          else
            let w := writeLiteralsLength w lane.len
            (List.range lane.len).foldl (fun w j => DAN1.wByte w (src.getD (index + j) 0)) w
        else writeDoublet w (9 + subset) lane.len lane.offset)
    w
  (writeEnd w).dest.toList

/-- The DAN3 encoder after the size gate and the empty-input crash. -/
def compressBody (input : List Nat) : List Nat :=
  let n := input.length
  let src := input.toArray
  let optimals : Array Entry := Array.mkArray n default
  let optimals := updateOptimal optimals 0 1 0
  let st := (List.range' 1 (n - 1)).foldl
    (fun (st : Array Entry × (Nat → List Nat)) i =>
      let (optimals, chains) := st
      let optimals := updateOptimal optimals i 1 0
      let optimals :=
        if 1 ≤ i then
          let j := min 256 i
          ((List.range' 2 (j - 1)).reverse).foldl
            (fun optimals k => updateOptimal optimals i k 0) optimals
        else optimals
      findMatches src (optimals, chains) i)
    (optimals, fun _ => [])
  let optimals := st.1
  let finalEntry := optimals.getD (n - 1) default
  let best := (List.range 8).foldl
    (fun (best : Nat × Nat) i =>
      let b := (finalEntry.getD i default).bits
      if b < best.1 then (b, i) else best)
    ((finalEntry.getD 0 default).bits, 0)
  let bestSubset := best.2
  let optimals := cleanup bestSubset optimals (n - 1) n
  writeLZ src optimals n bestSubset

/-- `DAN3Codec.compress`: the size gate, then (on the empty input) the
`this.optimals[-1].bits[0]` access, which is a TypeError in JavaScript. -/
def compress (input : List Nat) : Except CodecError (List Nat) :=
  if MAX < input.length then .error .inputTooLarge
  else if input.length = 0 then .error .jsTypeError
  else .ok (compressBody input)

end DAN3

/-! ## ZX7 (`src/js/codecs/zx7.js`) -/

namespace ZX7

/-- `_writeOffset`: one byte for offsets `≤ 128`; otherwise the low 7
bits with the top bit set, then 4 high bits through the bit stream. -/
def writeOffset (w : DAN1.W) (offset : Nat) : DAN1.W :=
  let offset := offset - 1
  if 128 ≤ offset then
    let offset := offset - 128
    let high := offset / 128
    let low := offset % 128
    DAN1.wBits (DAN1.wByte w (low ||| 0x80)) high 4
  else DAN1.wByte w offset

/-- `_writeDoublet`: flag 1, gamma(length - 1), offset. -/
def writeDoublet (w : DAN1.W) (length offset : Nat) : DAN1.W :=
  writeOffset (DAN1.writeEliasGamma (DAN1.wBit w true) (length - 1)) offset

/-- `_writeEnd`: flag 1, 16 zero bits, flag 1. -/
def writeEnd (w : DAN1.W) : DAN1.W :=
  DAN1.wBit (DAN1.wBits (DAN1.wBit w true) 0 16) true

/-- `_countBits`: `1 + gammaBits(len - 1) + 1 + (7 or 11)`. -/
def countBits (offset len : Nat) : Nat :=
  1 + DAN1.eliasGammaBits (len - 1) + 1 + (if 128 < offset then 11 else 7)

/-- The inner extension loop at one chain node (`for (len = 2; …)`). -/
def innerLen (src : Array Nat) (optimals : Array DAN1.O) (i offset : Nat) :
    Nat → Nat → DAN1.O → Nat → DAN1.O × Nat
  | len, bestLen, optI, 0 => (optI, bestLen)
  | len, bestLen, optI, fuel + 1 =>
    let (optI, bestLen) :=
      if bestLen < len then
        let cost := (optimals.getD (i - len) default).bits + countBits offset len
        (if cost < optI.bits then ⟨cost, offset, len⟩ else optI, len)
      else (optI, bestLen)
    if i < offset + len ∨ src.getD (i - len) 0 ≠ src.getD (i - len - offset) 0 then
      (optI, bestLen)
    else if 65536 ≤ len then (optI, bestLen)
    else innerLen src optimals i offset (len + 1) bestLen optI fuel

/-- The hash-chain walk (`while (match.next !== null && bestLen < MAX_LEN)`),
stopping (and flushing) past `MAX_OFFSET2 = 2176`. -/
def chainLoop (src : Array Nat) (optimals : Array DAN1.O) (i : Nat) :
    List Nat → Nat → DAN1.O → DAN1.O
  | [], _, optI => optI
  | pos :: rest, bestLen, optI =>
    if 65536 ≤ bestLen then optI
    else
      let offset := i - pos
      if 2176 < offset then optI
      else
        let (optI, bestLen) := innerLen src optimals i offset 2 bestLen optI (i + 2)
        chainLoop src optimals i rest bestLen optI

/-- One DP step at `i ≥ 1`: literal baseline, first single-byte match in
the window (taken only when strictly cheaper), the chain walk, then the
chain insert. -/
def dpStep (src : Array Nat) (st : Array DAN1.O × (Nat → List Nat)) (i : Nat) :
    Array DAN1.O × (Nat → List Nat) :=
  let (optimals, chains) := st
  let optI : DAN1.O := ⟨(optimals.getD (i - 1) default).bits + 1 + 8, 0, 1⟩
  let j := min 2176 i
  let optI :=
    match (List.range' 1 j).find? (fun k =>
        src.getD i 0 = src.getD (i - k) 0 ∧
        (optimals.getD (i - 1) default).bits + countBits k 1 < optI.bits) with
    | some k => (⟨(optimals.getD (i - 1) default).bits + countBits k 1, k, 1⟩ : DAN1.O)
    | none => optI
  let key := ((src.getD (i - 1) 0) <<< 8) ||| src.getD i 0
  let optI := chainLoop src optimals i (chains key) 1 optI
  (optimals.setD i optI, fun k => if k = key then i :: chains k else chains k)

/-- `ZX7Codec.compress` (the empty input returns the empty output before
any work). -/
def compress (data : List Nat) : List Nat :=
  if data.length = 0 then []
  else
    let n := data.length
    let src := data.toArray
    let optimals := (Array.mkArray n default).setD 0 ⟨8, 0, 1⟩
    let st := (List.range' 1 (n - 1)).foldl (dpStep src) (optimals, fun _ => [])
    let optimals := DAN1.cleanup st.1 (n - 1) n
    let w : DAN1.W := ⟨#[], 0, 0⟩
    let w := DAN1.wByte w (src.getD 0 0)
    let w := (List.range' 1 (n - 1)).foldl
      (fun w i =>
        let opt := optimals.getD i default
        if opt.len = 0 then w
        else
          let index := i - opt.len + 1
          if opt.offset = 0 then DAN1.wByte (DAN1.wBit w false) (src.getD index 0)
          else writeDoublet w opt.len opt.offset)
      w
    (writeEnd w).dest.toList

/-- Decoder state: the Z80-flavoured bit reader (`regA`, carry) plus the
input cursor. -/
structure R where
  src : Array Nat
  inputIndex : Nat
  regA : Nat
  flagCarry : Nat
  deriving Repr

/-- `readByte` (throws past the end of input). -/
def rByte (r : R) : Except CodecError (Nat × R) :=
  if r.src.size ≤ r.inputIndex then .error .truncated
  else .ok (r.src.getD r.inputIndex 0, { r with inputIndex := r.inputIndex + 1 })

/-- `sla` + `updateFlags`: shift `regA` left, capture the carry, report
whether the remaining byte is zero. -/
def sla (r : R) : Bool × R :=
  let a := r.regA <<< 1
  let carry := if a &&& 0x100 = 0 then 0 else 1
  (a &&& 0xFF = 0, { r with regA := a &&& 0xFF, flagCarry := carry })

/-- `readBit`. -/
def rBit (r : R) : Except CodecError (Nat × R) := do
  let (zero, r) := sla r
  if zero then
    let (b, r) ← rByte r
    let (_, r) := sla { r with regA := b }
    let r := { r with regA := r.regA ||| 1 }
    return (r.flagCarry, r)
  else return (r.flagCarry, r)

/-- The counting loop of `readEliasGamma` (`while (flagCarry === 0)`),
starting from `flagCarry = 0`. -/
def egLoop : R → Nat → Except CodecError (Nat × R)
  | r, 0 => .ok (17, r)
  | r, fuel + 1 => do
    let (_, r') ← rBit r
    let counter := 17 - fuel
    if r'.flagCarry ≠ 0 then return (counter, r')
    else if counter = 17 then return (counter, r')
    else egLoop r' fuel

/-- `readEliasGamma`: 17 reads without meeting a set carry yield the
sentinel 0. -/
def readEliasGamma (r : R) : Except CodecError (Nat × R) := do
  let r := { r with flagCarry := 0 }
  let (counter, r) ← egLoop r 17
  if counter < 17 then
    (List.range' 1 (counter - 1)).foldlM
      (fun (st : Nat × R) _ => do
        let (b, r) ← rBit st.2
        return ((st.1 <<< 1) ||| b, r))
      (1, r)
  else return (0, r)

/-- `readOffset`: a byte; if its top bit is set, 4 more bits form the
high nibble and the offset lands above `MAX_OFFSET1 = 128`. -/
def readOffset (r : R) : Except CodecError (Nat × R) := do
  let (offsetLow, r) ← rByte r
  if 127 < offsetLow then
    let (offsetHi, r) ← (List.range 4).foldlM
      (fun (st : Nat × R) _ => do
        let (b, r) ← rBit st.2
        return ((st.1 <<< 1) ||| b, r))
      (0, r)
    return ((offsetHi <<< 7) + (offsetLow &&& 0x7F) + 128 + 1, r)
  else return (offsetLow + 1, r)

/-- The decoder's token loop (`while (inputIndex < compressedData.length)`). -/
def decodeLoop (len : Nat) : Nat → R → Array Nat → Except CodecError (Array Nat)
  | 0, _, output => .ok output
  | fuel + 1, r, output => do
    if r.inputIndex < len then
      let (tokenType, r) ← rBit r
      if tokenType = 0 then
        let (b, r) ← rByte r
        decodeLoop len fuel r (output.push b)
      else
        let (matchLength, r) ← readEliasGamma r
        if matchLength = 0 then return output
        else
          let length := matchLength + 1
          let (offset, r) ← readOffset r
          if output.size < offset then .error .invalidOffset
          else
            let output := (List.range length).foldl
              (fun (o : Array Nat) _ => o.push (o.getD (o.size - offset) 0)) output
            decodeLoop len fuel r output
    else return output

/-- `ZX7Codec.decompress`. -/
def decompress (compressedData : List Nat) : Except CodecError (List Nat) :=
  if compressedData.length = 0 then .ok []
  else do
    let r : R := ⟨compressedData.toArray, 0, 128, 0⟩
    let (b, r) ← rByte r
    let out ← decodeLoop compressedData.length (8 * compressedData.length + 17) r #[b]
    return out.toList

end ZX7

/-! ## ZX0 (`src/unnamed/part_003`, `ZX0Codec`) -/

namespace ZX0

/-- The options recognised by `ZX0Codec.compress` / `decompress`. -/
structure Opts where
  classic : Bool := false
  backwards : Bool := false
  quick : Bool := false
  skip : Nat := 0
  deriving Repr, DecidableEq

/-- A block of the optimal-parse lattice, `createBlock(bits, index,
offset, chain)`; `bits` and `index` are JavaScript numbers that start at
`-1` for the seed block. -/
inductive Block where
  | mk (bits : Int) (index : Int) (offset : Nat) (chain : Option Block)

/-- `block.bits`. -/
def Block.bits : Block → Int
  | .mk b _ _ _ => b

/-- `block.index`. -/
def Block.index : Block → Int
  | .mk _ i _ _ => i

/-- `block.offset`. -/
def Block.offset : Block → Nat
  | .mk _ _ o _ => o

/-- `block.chain`. -/
def Block.chain : Block → Option Block
  | .mk _ _ _ c => c

/-- `eliasGammaBits` (same loop as the other codecs). -/
def eliasGammaBits (value : Nat) : Nat := DAN1.eliasGammaBits value

/-- `optimal[i].bits` with JavaScript's out-of-range/`null` accesses
never reached on live paths. -/
def optBits (opt : Array (Option Block)) (i : Int) : Int :=
  if 0 ≤ i then
    match opt.getD i.toNat none with
    | some b => b.bits
    | none => 0
  else 0

/-- Truthiness of `optimal[i]`. -/
def optTruthy (opt : Array (Option Block)) (i : Int) : Bool :=
  if 0 ≤ i then (opt.getD i.toNat none).isSome else false

/-- The amortised `do … while (bestLengthSize < matchLength[offset])`
growth of the `bestLength` table. -/
def growBestLength (opt : Array (Option Block)) (index target : Nat) :
    Nat → Nat → Int → Array Nat → Nat × Array Nat
  | bls, 0, _, bl => (bls, bl)
  | bls, fuel + 1, bits, bl =>
    let bls' := bls + 1
    let bits2 := optBits opt ((index : Int) - bls') + (eliasGammaBits (bls' - 1) : Int)
    let (bits, bl) :=
      if bits2 ≤ bits then (bits2, bl.setD bls' bls')
      else (bits, bl.setD bls' (bl.getD (bls' - 1) 0))
    if bls' < target then growBestLength opt index target bls' fuel bits bl
    else (bls', bl)

/-- The per-offset state threaded through `processOptimalBlock`. -/
structure PState where
  ll : Array (Option Block)
  lm : Array (Option Block)
  ml : Array Nat
  bl : Array Nat
  bls : Nat
  best : Option Block

/-- The body of `processOptimalBlock`'s `for (offset = 1; …)` loop for a
single offset. -/
def processOffset (input : Array Nat) (opt : Array (Option Block)) (index skip : Nat)
    (st : PState) (offset : Nat) : PState :=
  if index ≠ skip ∧ offset ≤ index ∧
      input.getD index 0 = input.getD (index - offset) 0 then
    let st :=
      match st.ll.getD offset none with
      | some llb =>
        let length := (index : Int) - llb.index
        let bits := llb.bits + 1 + (eliasGammaBits length.toNat : Int)
        let nb := Block.mk bits index offset (some llb)
        { st with lm := st.lm.setD offset (some nb),
                  best := match st.best with
                    | none => some nb
                    | some b => if b.bits > bits then some nb else some b }
      | none => st
    let ml' := st.ml.getD offset 0 + 1
    let st := { st with ml := st.ml.setD offset ml' }
    if 1 < ml' then
      let st :=
        if st.bls < ml' then
          let bits := optBits opt ((index : Int) - (st.bl.getD st.bls 0 : Int)) +
            (eliasGammaBits (st.bl.getD st.bls 0 - 1) : Int)
          let (bls, bl) := growBestLength opt index ml' st.bls (ml' + 1) bits st.bl
          { st with bls := bls, bl := bl }
        else st
      let length : Nat := st.bl.getD ml' 0
      if optTruthy opt ((index : Int) - (length : Int)) then
        let bits := optBits opt ((index : Int) - (length : Int)) + 8 +
          (eliasGammaBits ((offset - 1) / 128 + 1) : Int) +
          (eliasGammaBits (length - 1) : Int)
        let takeIt :=
          match st.lm.getD offset none with
          | none => true
          | some lmb => lmb.index ≠ (index : Int) ∨ lmb.bits > bits
        if takeIt then
          let nb := Block.mk bits index offset (opt.getD (index - length) none)
          { st with lm := st.lm.setD offset (some nb),
                    best := match st.best with
                      | none => some nb
                      | some b => if b.bits > bits then some nb else some b }
        else st
      else st
    else st
  else
    let st := { st with ml := st.ml.setD offset 0 }
    match st.lm.getD offset none with
    | some lmb =>
      let length := (index : Int) - lmb.index
      let bits := lmb.bits + 1 + (eliasGammaBits length.toNat : Int) + length * 8
      let nb := Block.mk bits index 0 (some lmb)
      { st with ll := st.ll.setD offset (some nb),
                best := match st.best with
                  | none => some nb
                  | some b => if b.bits > bits then some nb else some b }
    | none => st

/-- `processOptimalBlock(1, finalOffset, index, skip, …)`. -/
def processOptimalBlock (input : Array Nat) (opt : Array (Option Block))
    (index skip finalOffset : Nat) (ll lm : Array (Option Block)) (ml bl : Array Nat) :
    PState :=
  (List.range' 1 finalOffset).foldl (processOffset input opt index skip)
    ⟨ll, lm, ml, bl, 2, none⟩

/-- `optimize(input, skip, offsetLimit)`. -/
def optimize (input : Array Nat) (skip offsetLimit : Nat) : Option Block :=
  let arraySize := min (max (input.size - 1) 1) offsetLimit + 1
  let ll : Array (Option Block) := Array.mkArray arraySize none
  let lm : Array (Option Block) := Array.mkArray arraySize none
  let opt : Array (Option Block) := Array.mkArray input.size none
  let ml : Array Nat := Array.mkArray arraySize 0
  let bl : Array Nat := Array.mkArray input.size 0
  let bl := if 2 < bl.size then bl.setD 2 2 else bl
  let lm := lm.setD 1 (some (Block.mk (-1) ((skip : Int) - 1) 1 none))
  let st := (List.range' skip (input.size - skip)).foldl
    (fun (st : Array (Option Block) × Array (Option Block) × Array Nat × Array Nat ×
        Array (Option Block)) index =>
      let (ll, lm, ml, bl, opt) := st
      let maxOffset := min (max index 1) offsetLimit
      let ps := processOptimalBlock input opt index skip maxOffset ll lm ml bl
      (ps.ll, ps.lm, ps.ml, ps.bl, opt.setD index ps.best))
    (ll, lm, ml, bl, opt)
  st.2.2.2.2.getD (input.size - 1) none

/-- The block chain from the final block backwards. -/
def chainList : Block → List (Int × Int × Nat)
  | .mk bits index offset chain =>
    (bits, index, offset) ::
      (match chain with
       | none => []
       | some c => chainList c)

/-- Emitter state: output bytes, current bit holder, and the `backtrack`
flag that lets one bit reuse the low bit of the last offset byte. -/
structure W0 where
  out : Array Nat
  bitMask : Nat
  bitIndex : Nat
  backtrack : Bool
  deriving Repr

/-- `writeByte` of `compressOptimal`. -/
def wByte (w : W0) (v : Nat) : W0 := { w with out := w.out.push (v % 256) }

/-- `writeBit` of `compressOptimal` (with the backtrack low-bit reuse). -/
def wBit (w : W0) (v : Bool) : W0 :=
  if w.backtrack then
    let out := if v ∧ 0 < w.out.size then
      w.out.setD (w.out.size - 1) (w.out.getD (w.out.size - 1) 0 ||| 1)
    else w.out
    { w with out := out, backtrack := false }
  else
    let w := if w.bitMask = 0 then
      { w with bitMask := 128, bitIndex := w.out.size, out := w.out.push 0 }
    else w
    let out := if v then w.out.setD w.bitIndex (w.out.getD w.bitIndex 0 ||| w.bitMask)
      else w.out
    { w with out := out, bitMask := w.bitMask / 2 }

/-- `while (i <= value) i <<= 1; i >>= 1;` — the top power of two of the
interlaced gamma writer. -/
def gammaTop (value : Nat) : Nat → Nat → Nat
  | i, 0 => i / 2
  | i, fuel + 1 => if i ≤ value then gammaTop value (2 * i) fuel else i / 2

/-- The `while ((i >>= 1) > 0)` emission loop of
`writeInterlacedEliasGamma`. -/
def gammaLoop (value : Nat) (bw inv : Bool) : Nat → W0 → Nat → W0
  | _, w, 0 => w
  | i, w, fuel + 1 =>
    let i' := i / 2
    if i' = 0 then w
    else
      let w := wBit w bw
      let w := wBit w (inv = (value &&& i' = 0))
      gammaLoop value bw inv i' w fuel

/-- `writeInterlacedEliasGamma(value, backwardsMode, invertMode)`. -/
def writeInterlacedEliasGamma (w : W0) (value : Nat) (bw inv : Bool) : W0 :=
  let i := gammaTop value 2 40
  let w := gammaLoop value bw inv i w 40
  wBit w (!bw)

/-- One step of the emission walk over consecutive blocks
`(prev, optimal)`: a literal run, a last-offset copy, or a new-offset
copy. State is `(writer, inputIndex, lastOffset)`. -/
def emitStep (input : Array Nat) (bw inv : Bool) (st : W0 × Nat × Nat)
    (pair : (Int × Int × Nat) × (Int × Int × Nat)) : W0 × Nat × Nat :=
  let (w, inputIndex, lastOffset) := st
  let (prev, cur) := pair
  let length := (cur.2.1 - prev.2.1).toNat
  if cur.2.2 = 0 then
    let w := wBit w false
    let w := writeInterlacedEliasGamma w length bw false
    let (w, inputIndex) := (List.range length).foldl
      (fun (st : W0 × Nat) _ => (wByte st.1 (input.getD st.2 0), st.2 + 1))
      (w, inputIndex)
    (w, inputIndex, lastOffset)
  else if cur.2.2 = lastOffset then
    let w := wBit w false
    let w := writeInterlacedEliasGamma w length bw false
    (w, inputIndex + length, lastOffset)
  else
    let offset := cur.2.2
    let w := wBit w true
    let w := writeInterlacedEliasGamma w ((offset - 1) / 128 + 1) bw inv
    let w := wByte w (if bw then ((offset - 1) % 128) <<< 1
      else (127 - (offset - 1) % 128) <<< 1)
    let w := { w with backtrack := true }
    let w := writeInterlacedEliasGamma w (length - 1) bw false
    (w, inputIndex + length, offset)

/-- `compressOptimal(optimal, input, skip, backwardsMode, invertMode)`:
reverse the chain, walk consecutive block pairs, then the EOF token
(tag 1, gamma 256). -/
def compressOptimal (optimal : Block) (input : Array Nat) (skip : Nat) (bw inv : Bool) :
    Array Nat :=
  let blocks := (chainList optimal).reverse
  let steps := blocks.zip blocks.tail
  let w : W0 := ⟨#[], 0, 0, true⟩
  let (w, _, _) := steps.foldl (emitStep input bw inv) (w, skip, 1)
  let w := wBit w true
  let w := writeInterlacedEliasGamma w 256 bw inv
  w.out

/-- `ZX0Codec.compress`. -/
def compress (data : List Nat) (o : Opts) : Except CodecError (List Nat) :=
  if data.length = 0 then .ok []
  else
    let backwardsMode := o.backwards
    let invertMode := ¬o.classic ∧ ¬backwardsMode
    let offsetLimit := if o.quick then 2176 else 32640
    let input := if backwardsMode then data.reverse else data
    match optimize input.toArray o.skip offsetLimit with
    | none => .error .optimizeFailed
    | some optimal =>
      let result := (compressOptimal optimal input.toArray o.skip backwardsMode invertMode).toList
      .ok (if backwardsMode then result.reverse else result)

/-- The classic-mode emitter with only the continuation-bit sense
flipped. Modelled from the spec: the documented `backwards` rule is
"reverse input before compress, reverse output after; flip
continuation-bit sense", so this variant passes the backwards flag to
the interlaced-gamma writer but keeps the classic (complemented)
new-offset LSB byte. -/
def claimEmitStep (input : Array Nat) (st : W0 × Nat × Nat)
    (pair : (Int × Int × Nat) × (Int × Int × Nat)) : W0 × Nat × Nat :=
  let (w, inputIndex, lastOffset) := st
  let (prev, cur) := pair
  let length := (cur.2.1 - prev.2.1).toNat
  if cur.2.2 = 0 then
    let w := wBit w false
    let w := writeInterlacedEliasGamma w length true false
    let (w, inputIndex) := (List.range length).foldl
      (fun (st : W0 × Nat) _ => (wByte st.1 (input.getD st.2 0), st.2 + 1))
      (w, inputIndex)
    (w, inputIndex, lastOffset)
  else if cur.2.2 = lastOffset then
    let w := wBit w false
    let w := writeInterlacedEliasGamma w length true false
    (w, inputIndex + length, lastOffset)
  else
    let offset := cur.2.2
    let w := wBit w true
    let w := writeInterlacedEliasGamma w ((offset - 1) / 128 + 1) true false
    let w := wByte w ((127 - (offset - 1) % 128) <<< 1)
    let w := { w with backtrack := true }
    let w := writeInterlacedEliasGamma w (length - 1) true false
    (w, inputIndex + length, offset)

/-- Modelled from the spec: `reverse(compress(reverse(x), classic))`
with only the documented bit-inversion rules applied (continuation-bit
sense flipped, MSB gamma uninverted) — the reading of the claim's
right-hand side. -/
def claimBackwardsCompress (data : List Nat) : Except CodecError (List Nat) :=
  if data.length = 0 then .ok []
  else
    let input := data.reverse
    match optimize input.toArray 0 32640 with
    | none => .error .optimizeFailed
    | some optimal =>
      let blocks := (chainList optimal).reverse
      let steps := blocks.zip blocks.tail
      let w : W0 := ⟨#[], 0, 0, true⟩
      let (w, _, _) := steps.foldl (claimEmitStep input.toArray) (w, 0, 1)
      let w := wBit w true
      let w := writeInterlacedEliasGamma w 256 true false
      .ok w.out.toList.reverse

/-- Decoder reader state: `index`, the current bit holder, the last byte
read (for the backtrack bit), and the backtrack flag. -/
structure RSt where
  src : Array Nat
  index : Nat
  bitMask : Nat
  bitValue : Nat
  lastByte : Nat
  backtrack : Bool
  deriving Repr

/-- Decoder `readByte` (out-of-range reads give 0, as
`undefined & 0xff` does). -/
def rByte (r : RSt) : Nat × RSt :=
  let b := r.src.getD r.index 0 % 256
  (b, { r with index := r.index + 1, lastByte := b })

/-- Decoder `readBit` (with the backtrack low-bit reuse of the last
offset byte). -/
def rBit (r : RSt) : Nat × RSt :=
  if r.backtrack then
    (r.lastByte &&& 1, { r with backtrack := false })
  else
    let mask := r.bitMask / 2
    if mask = 0 then
      let (b, r) := rByte r
      (if b &&& 128 ≠ 0 then 1 else 0, { r with bitMask := 128, bitValue := b })
    else
      (if r.bitValue &&& mask ≠ 0 then 1 else 0, { r with bitMask := mask })

/-- Decoder `readInterlacedEliasGamma(msb)` (accumulating
`value = (value << 1) | (readBit() ^ inversion)`). -/
def rGamma (backwards inverted msb : Bool) : RSt → Nat → Nat → Nat × RSt
  | r, value, 0 => (value, r)
  | r, value, fuel + 1 =>
    let (b, r) := rBit r
    if b = (if backwards then 1 else 0) then
      let (b2, r) := rBit r
      let bit := b2 ^^^ (if msb ∧ inverted then 1 else 0)
      rGamma backwards inverted msb r ((value <<< 1) ||| bit) fuel
    else (value, r)

/-- One overlap-capable copy `output.push(output[output.length -
lastOffset])`, repeated `length` times. -/
def copyRun (lastOffset : Nat) (output : Array Nat) : Nat → Array Nat
  | 0 => output
  | len + 1 =>
    let v := if lastOffset ≤ output.size then output.getD (output.size - lastOffset) 0 else 0
    copyRun lastOffset (output.push v) len

/-- The three-state decoder loop: states 0 = `COPY_LITERALS`,
1 = `COPY_FROM_LAST_OFFSET`, 2 = `COPY_FROM_NEW_OFFSET`. -/
def decodeLoop (backwards inverted : Bool) :
    Nat → Nat → RSt → Array Nat → Nat → Array Nat
  | _, _, _, output, 0 => output
  | state, lastOffset, r, output, fuel + 1 =>
    if state = 0 then
      let (length, r) := rGamma backwards inverted false r 1 (8 * r.src.size + 34)
      let (output, r) := (List.range length).foldl
        (fun (st : Array Nat × RSt) _ =>
          let (b, r) := rByte st.2
          (st.1.push b, r))
        (output, r)
      let (b, r) := rBit r
      decodeLoop backwards inverted (if b = 0 then 1 else 2) lastOffset r output fuel
    else if state = 1 then
      let (length, r) := rGamma backwards inverted false r 1 (8 * r.src.size + 34)
      let output := copyRun lastOffset output length
      let (b, r) := rBit r
      decodeLoop backwards inverted (if b = 0 then 0 else 2) lastOffset r output fuel
    else
      let (msb, r) := rGamma backwards inverted true r 1 (8 * r.src.size + 34)
      if msb = 256 then output
      else
        let (lsbByte, r) := rByte r
        let lsb := lsbByte / 2
        let lastOffset := if backwards then msb * 128 + lsb - 127 else msb * 128 - lsb
        let r := { r with backtrack := true }
        let (length0, r) := rGamma backwards inverted false r 1 (8 * r.src.size + 34)
        let output := copyRun lastOffset output (length0 + 1)
        let (b, r) := rBit r
        decodeLoop backwards inverted (if b = 0 then 0 else 2) lastOffset r output fuel

/-- `ZX0Codec.decompress`. -/
def decompress (compressedData : List Nat) (o : Opts) : List Nat :=
  if compressedData.length = 0 then []
  else
    let backwards := o.backwards
    let inverted := ¬o.classic ∧ ¬backwards
    let input := if backwards then compressedData.reverse else compressedData
    let r : RSt := ⟨input.toArray, 0, 0, 0, 0, false⟩
    let output := decodeLoop backwards inverted 0 1 r #[] (8 * input.length + 34)
    if backwards then output.toList.reverse else output.toList

end ZX0

/-! ## BitBuster v1.2 (`src/unnamed/part_001`, `BitBusterV12Codec`) -/

namespace BitBuster

/-- Default `maxInput = 512 * 1024`. -/
def MAX_INPUT : Nat := 512 * 1024

/-- Writer state of `_beginWriter`: the output, the reserved bit-holder
position, and the bit accumulator. -/
structure BW where
  out : Array Nat
  bitPos : Nat
  bitData : Nat
  bitCount : Nat
  deriving Repr

/-- `writeByte`. -/
def wByte (w : BW) (b : Nat) : BW := { w with out := w.out.push (b % 256) }

/-- `rotateBitByte`: backfill the reserved byte, reserve the next. -/
def rotate (w : BW) : BW :=
  let out := w.out.setD w.bitPos (w.bitData % 256)
  { out := out.push 0, bitPos := out.size, bitData := 0, bitCount := 0 }

/-- `writeBit` (MSB-first into the rotating bit byte). -/
def wBit (w : BW) (v : Bool) : BW :=
  let w := if w.bitCount = 8 then rotate w else w
  { w with bitData := ((w.bitData <<< 1) ||| (if v then 1 else 0)) % 256,
           bitCount := w.bitCount + 1 }

/-- `writeGamma(value)` for `value ≥ 0`: `k` ones, a zero, then the low
`k` bits of `value + 1`. -/
def writeGamma (w : BW) (value : Nat) : BW :=
  let n := value + 1
  let k := go n 0 33
  let w := (List.range k).foldl (fun w _ => wBit w true) w
  let w := wBit w false
  (List.range k).reverse.foldl (fun w i => wBit w ((n >>> i) &&& 1 ≠ 0)) w
where
  /-- `let k = 0; for (let t = n; t > 1; t >>= 1) k++;` -/
  go : Nat → Nat → Nat → Nat
    | _, k, 0 => k
    | t, k, fuel + 1 => if 1 < t then go (t / 2) (k + 1) fuel else k

/-- `writeOffset(dist)`. -/
def writeOffset (w : BW) (dist : Nat) : BW :=
  let x := dist - 1
  if x ≤ 127 then wByte w x
  else
    let w := wByte w (0x80 ||| (x &&& 0x7f))
    let hi := (x >>> 7) &&& 0x0f
    wBit (wBit (wBit (wBit w (hi &&& 8 ≠ 0)) (hi &&& 4 ≠ 0)) (hi &&& 2 ≠ 0)) (hi &&& 1 ≠ 0)

/-- `endStream`: the EOF sentinel (tag 1, offset byte 0, sixteen ones, a
zero) and the final bit-byte backfill. -/
def endStream (w : BW) : BW :=
  let w := wBit w true
  let w := wByte w 0
  let w := (List.range 16).foldl (fun w _ => wBit w true) w
  let w := wBit w false
  if 0 < w.bitCount then
    { w with out := w.out.setD w.bitPos ((w.bitData <<< (8 - w.bitCount)) % 256) }
  else w

/-- `_gammaSize(v)`. -/
def gammaSize (v : Nat) : Nat := go v 1 40
where
  go : Nat → Nat → Nat → Nat
    | 0, g, _ => g
    | _, g, 0 => g
    | v + 1, g, fuel + 1 => go (v / 2) (g + 2) fuel

/-- The match extension of `_optimalPlan`
(`while (i+l < n && input[i+l] === input[i-off+l]) { l++; if (l >= 65535) break; }`). -/
def extendLen (input : Array Nat) (n i off : Nat) : Nat → Nat → Nat
  | l, 0 => l
  | l, fuel + 1 =>
    if i + l < n ∧ input.getD (i + l) 0 = input.getD (i - off + l) 0 then
      if 65535 ≤ l + 1 then l + 1
      else extendLen input n i off (l + 1) fuel
    else l

/-- The backward DP of `_optimalPlan`. -/
def optimalPlan (input : Array Nat) : Array Nat × Array Nat :=
  let n := input.size
  let st := (List.range n).reverse.foldl
    (fun (st : Array Nat × Array Nat × Array Nat) i =>
      let (cost, bestLen, bestOff) := st
      let maxOff := min 2047 i
      let best := (List.range' 1 maxOff).foldl
        (fun (b : Nat × Nat × Nat) off =>
          let l := extendLen input n i off 0 (n + 2)
          if 1 < l then
            let bits := 1 + gammaSize (l - 2) + (if off ≤ 128 then 8 else 12)
            let c := cost.getD (min n (i + l)) 0 + bits
            if c < b.1 then (c, l, off) else b
          else b)
        (cost.getD (i + 1) 0 + 9, 0, 0)
      (cost.setD i best.1, bestLen.setD i best.2.1, bestOff.setD i best.2.2))
    (Array.mkArray (n + 1) 0, Array.mkArray n 0, Array.mkArray n 0)
  (st.2.1, st.2.2)

/-- The token-emission loop of `compress`. -/
def emitLoop (input : Array Nat) (bestLen bestOff : Array Nat) :
    Nat → Nat → BW → BW
  | _, 0, w => w
  | i, fuel + 1, w =>
    if i < input.size then
      let l := bestLen.getD i 0
      if 1 < l then
        let w := wBit w true
        let w := writeOffset w (bestOff.getD i 0)
        let w := writeGamma w (l - 2)
        emitLoop input bestLen bestOff (i + l) fuel w
      else
        let w := wBit w false
        let w := wByte w (input.getD i 0)
        emitLoop input bestLen bestOff (i + 1) fuel w
    else w

/-- `BitBusterV12Codec.compress`: 4-byte little-endian length header,
reserved bit byte, token stream, EOF sentinel. -/
def compress (input : List Nat) : Except CodecError (List Nat) :=
  let n := input.length
  if n = 0 then .ok [0, 0, 0, 0]
  else if MAX_INPUT < n then .error .inputTooLarge
  else
    let inp := input.toArray
    let (bestLen, bestOff) := optimalPlan inp
    let w : BW := ⟨#[n % 256, n / 256 % 256, n / 65536 % 256, n / 16777216 % 256, 0], 4, 0, 0⟩
    let w := emitLoop inp bestLen bestOff 0 (n + 1) w
    .ok (endStream w).out.toList

/-- Decoder reader state. -/
structure BR where
  src : Array Nat
  pos : Nat
  bitMask : Nat
  bitByte : Nat
  deriving Repr

/-- Decoder `readBit` (fails at end of input when a fresh bit byte is
needed). -/
def rBit (r : BR) : Except CodecError (Nat × BR) :=
  if r.bitMask = 0 then
    if r.src.size ≤ r.pos then .error .truncated
    else
      let b := r.src.getD r.pos 0
      .ok (if b &&& 0x80 ≠ 0 then 1 else 0,
        { r with pos := r.pos + 1, bitMask := 0x80 / 2, bitByte := b })
  else
    .ok (if r.bitByte &&& r.bitMask ≠ 0 then 1 else 0, { r with bitMask := r.bitMask / 2 })

/-- Decoder `readByte`. -/
def rByte (r : BR) : Except CodecError (Nat × BR) :=
  if r.src.size ≤ r.pos then .error .truncated
  else .ok (r.src.getD r.pos 0, { r with pos := r.pos + 1 })

/-- The leading-ones count of `readGammaEx` (capped at 16, the EOF
sentinel). -/
def gammaOnes (r : BR) : Nat → Except CodecError (Nat × BR)
  | 0 => .ok (16, r)
  | fuel + 1 => do
    let (b, r) ← rBit r
    if b = 1 then
      if 16 - fuel = 16 then return (16, r)
      else
        let (k, r) ← gammaOnes r fuel
        return (k, r)
    else return (16 - fuel - 1, r)

/-- `readGammaEx`: `{ value, k }`, with `value = 0` when `k = 16`. -/
def readGammaEx (r : BR) : Except CodecError (Nat × Nat × BR) := do
  let (k, r) ← gammaOnes r 16
  if k = 16 then return (0, 16, r)
  else
    let (val, r) ← (List.range k).foldlM
      (fun (st : Nat × BR) _ => do
        let (b, r) ← rBit st.2
        return ((st.1 <<< 1) ||| b, r))
      (1, r)
    return (val - 1, k, r)

/-- Bounded store into the fixed-size output (`Uint8Array` drops
out-of-range writes). -/
def setAt (a : Array Nat) (i v : Nat) : Array Nat :=
  if h : i < a.size then a.set ⟨i, h⟩ v else a

/-- One match copy `out[i+k] = out[ref+k]` for `k < len` (sequential,
overlap-capable). -/
def bbCopy (out : Array Nat) (i ref : Nat) : Nat → Array Nat
  | 0 => out
  | len + 1 =>
    let out := setAt out i (out.getD ref 0)
    bbCopy out (i + 1) (ref + 1) len

/-- The decoder token loop (`while (i < outLen)`). -/
def decodeLoop (outLen : Nat) : Nat → Nat → BR → Array Nat → Except CodecError (Array Nat)
  | _, 0, _, out => .ok out
  | i, fuel + 1, r, out => do
    if i < outLen then
      let (tag, r) ← rBit r
      if tag = 0 then
        let (b, r) ← rByte r
        decodeLoop outLen (i + 1) fuel r (setAt out i b)
      else
        let (b0, r) ← rByte r
        if b0 = 0 then
          let (value, k, r) ← readGammaEx r
          if k = 16 then return out
          else
            let len := value + 2
            if (i : Int) - 1 < 0 then .error .invalidOffset
            else decodeLoop outLen (i + len) fuel r (bbCopy out i (i - 1) len)
        else if b0 &&& 0x80 = 0 then
          let dist := (b0 &&& 0x7f) + 1
          let (value, _, r) ← readGammaEx r
          let len := value + 2
          if (i : Int) - dist < 0 then .error .invalidOffset
          else decodeLoop outLen (i + len) fuel r (bbCopy out i (i - dist) len)
        else
          let (hi, r) ← (List.range 4).foldlM
            (fun (st : Nat × BR) _ => do
              let (b, r) ← rBit st.2
              return ((st.1 <<< 1) ||| b, r))
            (0, r)
          let dist := ((b0 &&& 0x7f) ||| (hi <<< 7)) + 1
          let (value, _, r) ← readGammaEx r
          let len := value + 2
          if (i : Int) - dist < 0 then .error .invalidOffset
          else decodeLoop outLen (i + len) fuel r (bbCopy out i (i - dist) len)
    else return out

/-- The 32-bit little-endian length header. -/
def headerLen (bytes : List Nat) : Nat :=
  bytes.getD 0 0 + 256 * bytes.getD 1 0 + 65536 * bytes.getD 2 0 + 16777216 * bytes.getD 3 0

/-- `BitBusterV12Codec.decompress`. -/
def decompress (bytes : List Nat) : Except CodecError (List Nat) := do
  if bytes.length < 4 then .error .truncated
  else
    let outLen := headerLen bytes
    let r : BR := ⟨bytes.toArray, 4, 0, 0⟩
    let out ← decodeLoop outLen 0 (outLen + 1) r (Array.mkArray outLen 0)
    return out.toList

end BitBuster

/-- Shift/bit pairs `(7 + w - 1, …), …, (7, …)` for `j`, the common shape of
`Pletter.extraShifts q` zipped with the emitted extra bits. -/
def posPairs (j : Nat) : Nat → List (Nat × Bool)
  | 0 => []
  | w + 1 => ((7 + w, j &&& 2 ^ (7 + w) ≠ 0) : Nat × Bool) :: posPairs j w

/-- The value-independent part of a ZX0 writer state: output size, bit
mask, bit-holder index and the backtrack flag. -/
def zxShape (w : ZX0.W0) : Nat × Nat × Nat × Bool :=
  (w.out.size, w.bitMask, w.bitIndex, w.backtrack)


/-!
## Theorems

The claims C1–C10 of the specification, settled against the embedding
above.
-/

/-- C1. For every codec and every input within its size bound —
including the documented options, e.g. DAN1's `rle` — decompression
inverts compression. The code violates this: with `rle` enabled, DAN1's
encoder emits a RAW block as flag 0, sixteen zero bits, a one, a length
byte and the raw payload, but the decoder's gamma reader consumes the
disambiguation bit inside its sentinel path and `decompress` then reads
one further bit, so on the 28-byte input `0,1,…,27` the decoder
misreads the stream's end-marker flag and returns only the first byte. -/
theorem c1_dan1_rle_roundtrip_failure :
    (DAN1.compress (List.range 28) true).bind DAN1.decompress = .ok [0] ∧
    List.range 28 ≠ [0] := by
  decide

/-- C2 counterexample. The claim says LZF compresses the empty input to
the empty byte string; the code appends the end marker unconditionally,
so the output is `[0xFF]`. -/
theorem c2_lzf_empty_not_empty :
    LZF.compress [] = [0xFF] ∧ ([0xFF] : List Nat) ≠ [] := by
  decide

/-- C2 (amended). Compressing the empty input yields `[0xFF]` for
MDK-RLE and for LZF, the empty byte string for ZX7, ZX0 and DAN1, a
TypeError failure for DAN3 (it dereferences `optimals[-1]`), and
`[0,0,0,0]` for BitBuster; decompressing each produced output yields the
empty byte string. -/
theorem c2_empty_input_amended :
    MdkRLE.compress [] = [0xFF] ∧ MdkRLE.decompress [0xFF] = .ok [] ∧
    LZF.compress [] = [0xFF] ∧ LZF.decompress [0xFF] = [] ∧
    ZX7.compress [] = [] ∧ ZX7.decompress [] = .ok [] ∧
    ZX0.compress [] {} = .ok [] ∧ ZX0.decompress [] {} = [] ∧
    DAN1.compress [] false = .ok [] ∧ DAN1.decompress [] = .ok [] ∧
    DAN3.compress [] = .error .jsTypeError ∧
    BitBuster.compress [] = .ok [0, 0, 0, 0] ∧
    BitBuster.decompress [0, 0, 0, 0] = .ok [] := by
  decide

/-- C3 counterexample. At 262,145 bytes the claim expects DAN1 to reject
(`MaxInput = 262,144` per the claim) and DAN3 to accept (`524,288` per
the claim); the code does the opposite: DAN1's default bound is
`512 * 1024` and DAN3's is `256 * 1024`. -/
theorem c3_dan_bounds_swapped :
    DAN3.compress (List.replicate 262145 0) = .error .inputTooLarge ∧
    DAN1.compress (List.replicate 262145 0) false ≠ .error .inputTooLarge := by
  have hlen : (List.replicate 262145 (0 : Nat)).length = 262145 :=
    List.length_replicate _ _
  constructor
  · have h : DAN3.MAX < (List.replicate 262145 (0 : Nat)).length := by
      rw [hlen]; norm_num [DAN3.MAX]
    unfold DAN3.compress
    rw [if_pos h]
  · have h1 : ¬((List.replicate 262145 (0 : Nat)).length = 0) := by
      rw [hlen]; norm_num
    have h2 : ¬(DAN1.MAX < (List.replicate 262145 (0 : Nat)).length) := by
      rw [hlen]; norm_num [DAN1.MAX]
    unfold DAN1.compress
    rw [if_neg h1, if_neg h2]
    exact fun hcon => Except.noConfusion hcon

/-- C3 (amended). Compress rejects with `InputTooLarge` exactly when the
input exceeds the codec's bound: 65,536 bytes for Pletter, 524,288 for
DAN1 (the constructor default), 262,144 for DAN3, and 524,288 by default
for BitBuster — in particular an input of exactly the bound is never
rejected as too large, and one byte more always is; MDK-RLE and LZF
perform no size check (their `compress` embeddings are total functions
into byte lists). -/
theorem c3_size_limits_amended (x : List Nat) (rle : Bool) :
    (Pletter.compress x = .error .inputTooLarge ↔ 65536 < x.length) ∧
    (DAN1.compress x rle = .error .inputTooLarge ↔ 524288 < x.length) ∧
    (DAN3.compress x = .error .inputTooLarge ↔ 262144 < x.length) ∧
    (BitBuster.compress x = .error .inputTooLarge ↔ 524288 < x.length) := by
  refine ⟨?_, ?_, ?_, ?_⟩
  · unfold Pletter.compress
    by_cases h0 : x.length = 0
    · simp [h0]
    · by_cases h1 : 65536 < x.length <;> simp [h0, h1]
  · unfold DAN1.compress DAN1.MAX
    by_cases h0 : x.length = 0
    · simp [h0]
    · by_cases h1 : 512 * 1024 < x.length <;> simp [h0, h1]
  · unfold DAN3.compress DAN3.MAX
    by_cases h1 : 256 * 1024 < x.length
    · simp [h1]
    · by_cases h0 : x.length = 0 <;> simp [h0, h1]
  · unfold BitBuster.compress BitBuster.MAX_INPUT
    by_cases h0 : x.length = 0
    · simp [h0]
    · by_cases h1 : 512 * 1024 < x.length <;> simp [h0, h1]

/-- C3 witness: the Pletter clause at the concrete boundary input of
65,537 zero bytes. -/
theorem c3_size_limits_witness :
    Pletter.compress (List.replicate 65537 0) = .error .inputTooLarge :=
  ((c3_size_limits_amended (List.replicate 65537 0) false).1).mpr
    (by rw [List.length_replicate]; norm_num)

/-- C7 counterexample. The compressed form of the one-byte input
`[0xFF]` is `[0x00, 0xFF, 0xFF]`: the literal payload byte equals the
end marker, so the output contains two `0xFF` bytes, not exactly one. -/
theorem c7_literal_ff_payload :
    LZF.compress [0xFF] = [0x00, 0xFF, 0xFF] ∧
    (LZF.compress [0xFF]).count 0xFF = 2 ∧ (2 : Nat) ≠ 1 := by
  decide

/-- C7 (amended). Every LZF compressed output ends with a `0xFF` byte at
the terminal position; `0xFF` may also occur earlier in the stream, for
instance inside a literal chunk's payload when the input contains
`0xFF` (the decoder only tests for the marker at token boundaries). -/
theorem c7_end_marker_amended (input : List Nat) :
    (LZF.compress input).getLast? = some 0xFF ∧
    ∃ body, LZF.compress input = body ++ [0xFF] := by
  constructor
  · unfold LZF.compress
    exact List.getLast?_concat _
  · exact ⟨_, rfl⟩

/-- C7 witness: the end-marker structure at the concrete input `[1, 2, 3]`. -/
theorem c7_end_marker_witness :
    (LZF.compress [1, 2, 3]).getLast? = some 0xFF ∧
    ∃ body, LZF.compress [1, 2, 3] = body ++ [0xFF] :=
  c7_end_marker_amended [1, 2, 3]

/-- C8 counterexample. The 300-byte constant run compresses to three
2-byte RLE packets plus the end marker — 7 bytes in total, not the
claimed 9 bytes plus EOF. -/
theorem c8_size_is_seven :
    (MdkRLE.compress (List.replicate 300 0x55)).length = 7 ∧ (7 : Nat) ≠ 9 + 1 := by
  decide

/-- If the first `f` bits read are all zero, the gamma reader's counting
loop runs to the end, consuming one further bit. -/
lemma dan1_egLoop_false_prefix :
    ∀ (f : Nat) (r : DAN1.R),
      (DAN1.rBitsList r f).1 = List.replicate f false →
      DAN1.egLoop r (f + 1) = (17, (DAN1.rBitsList r (f + 1)).2) := by
  intro f
  induction f with
  | zero =>
    intro r _
    rcases hbr : DAN1.rBit r with ⟨b, r'⟩
    cases b
    · simp [DAN1.egLoop, hbr, DAN1.rBitsList]
    · simp [DAN1.egLoop, hbr, DAN1.rBitsList]
  | succ f ih =>
    intro r hall
    rcases hbr : DAN1.rBit r with ⟨b, r'⟩
    have hcons : DAN1.rBitsList r (f + 1) =
        (b :: (DAN1.rBitsList r' f).1, (DAN1.rBitsList r' f).2) := by
      simp [DAN1.rBitsList, hbr]
    rw [hcons, List.replicate_succ] at hall
    simp only [List.cons.injEq] at hall
    obtain ⟨hb, htail⟩ := hall
    have hrec := ih r' htail
    have hcons2 : DAN1.rBitsList r (f + 2) =
        (b :: (DAN1.rBitsList r' (f + 1)).1, (DAN1.rBitsList r' (f + 1)).2) := by
      simp [DAN1.rBitsList, hbr]
    have hstep : DAN1.egLoop r (f + 2) = DAN1.egLoop r' (f + 1) := by
      simp [DAN1.egLoop, hbr, hb]
    rw [hstep, hrec, hcons2]

/-- If one of the first `f ≤ 16` bits is set, the counting loop stops
with a counter of at most 16. -/
lemma dan1_egLoop_true_prefix :
    ∀ (f : Nat) (r : DAN1.R), f ≤ 16 →
      (DAN1.rBitsList r f).1 ≠ List.replicate f false →
      (DAN1.egLoop r (f + 1)).1 ≤ 16 := by
  intro f
  induction f with
  | zero => intro r _ hne; exact absurd (by simp [DAN1.rBitsList]) hne
  | succ f ih =>
    intro r hf hne
    rcases hbr : DAN1.rBit r with ⟨b, r'⟩
    have hcons : DAN1.rBitsList r (f + 1) =
        (b :: (DAN1.rBitsList r' f).1, (DAN1.rBitsList r' f).2) := by
      simp [DAN1.rBitsList, hbr]
    cases b
    · have htail : (DAN1.rBitsList r' f).1 ≠ List.replicate f false := by
        intro hc
        apply hne
        rw [hcons, List.replicate_succ, hc]
      have hrec := ih r' (by omega) htail
      have hstep : DAN1.egLoop r (f + 2) = DAN1.egLoop r' (f + 1) := by
        simp [DAN1.egLoop, hbr]
      rw [hstep]; exact hrec
    · have hstep : DAN1.egLoop r (f + 2) = (17 - (f + 1), r') := by
        simp [DAN1.egLoop, hbr]
      rw [hstep]; simp

/-- A property preserved by each fold step holds of the fold's result. -/
lemma foldl_pred_preserved {α β : Type} (P : β → Prop) (f : β → α → β)
    (hf : ∀ b a, P b → P (f b a)) :
    ∀ (l : List α) (b : β), P b → P (l.foldl f b) := by
  intro l
  induction l with
  | nil => intro b h; simpa
  | cons x xs ih => intro b h; simp only [List.foldl_cons]; exact ih _ (hf _ _ h)

/-- A shifted-and-ORed accumulator stays at least 1. -/
lemma one_le_shift_or (v : Nat) (h : 1 ≤ v) (b : Bool) :
    1 ≤ (v <<< 1) ||| (if b then 1 else 0) := by
  cases b
  · simp only [Bool.false_eq_true, if_false]
    have h2 : (v <<< 1) ||| 0 = v <<< 1 := by simp
    rw [h2, Nat.shiftLeft_eq]
    omega
  · simp only [if_pos trivial, if_true]
    rw [Nat.one_le_iff_ne_zero]
    intro hz
    have h0 := congrArg (fun t => t.testBit 0) hz
    simp [Nat.testBit_lor] at h0

/-- The payload phase of the gamma reader always produces a value of at
least 1. -/
lemma dan1_egValue_ge_one (r : DAN1.R) (counter : Nat) :
    1 ≤ (DAN1.egValue r counter).1 := by
  unfold DAN1.egValue
  apply foldl_pred_preserved (P := fun st : Nat × DAN1.R => 1 ≤ st.1)
  · intro st a h
    rcases hbr : DAN1.rBit st.2 with ⟨b, r'⟩
    simp only [hbr]
    exact one_le_shift_or st.1 h b
  · exact le_refl 1

/-- C4 counterexample. On the bit stream `0^16 1 …` (bytes
`0x00 0x00 0x80`) the reader returns the sentinel 0 even though the 17
consecutive bits read do contain a 1 — so "returns 0 as sentinel when 17
consecutive bits fail to see a 1, and otherwise returns the decoded
gamma value" is false of the code. -/
theorem c4_sentinel_despite_one :
    (DAN1.readEliasGamma ⟨#[0x00, 0x00, 0x80], 0, 0, 0⟩).1 = 0 ∧
    (DAN1.rBitsList ⟨#[0x00, 0x00, 0x80], 0, 0, 0⟩ 17).1 ≠ List.replicate 17 false := by
  decide

/-- C4 (amended). DAN1's Elias-gamma reader returns 0 as sentinel
exactly when the first 16 bits read are all zero; in that case it has
consumed 17 bits — the 17th (the encoder's RAW/END disambiguation bit)
is consumed and discarded regardless of its value, after which
`decompress` reads one further bit to choose RAW (1: a byte giving
`length − 27` and that many raw bytes) or END (0), one bit later than
the encoder's emission. When some of the first 16 bits is a 1, the
reader returns a decoded gamma value of at least 1. -/
theorem c4_gamma_sentinel_amended (r : DAN1.R) :
    ((DAN1.readEliasGamma r).1 = 0 ↔ (DAN1.rBitsList r 16).1 = List.replicate 16 false) ∧
    ((DAN1.rBitsList r 16).1 = List.replicate 16 false →
      DAN1.readEliasGamma r = (0, (DAN1.rBitsList r 17).2)) ∧
    ((DAN1.rBitsList r 16).1 ≠ List.replicate 16 false →
      1 ≤ (DAN1.readEliasGamma r).1) := by
  by_cases hall : (DAN1.rBitsList r 16).1 = List.replicate 16 false
  · have h17 := dan1_egLoop_false_prefix 16 r hall
    have hsent : DAN1.readEliasGamma r = (0, (DAN1.rBitsList r 17).2) := by
      unfold DAN1.readEliasGamma
      rw [h17]
      show (if 17 ≤ 17 then ((0 : Nat), (DAN1.rBitsList r 17).2)
        else DAN1.egValue (DAN1.rBitsList r 17).2 17) = (0, (DAN1.rBitsList r 17).2)
      rw [if_pos (le_refl 17)]
    exact ⟨⟨fun _ => hall, fun _ => by rw [hsent]⟩, fun _ => hsent,
      fun hne => absurd hall hne⟩
  · have hle := dan1_egLoop_true_prefix 16 r (by norm_num) hall
    have hval : 1 ≤ (DAN1.readEliasGamma r).1 := by
      unfold DAN1.readEliasGamma
      rcases hc : DAN1.egLoop r 17 with ⟨counter, r'⟩
      rw [hc] at hle
      simp only at hle
      show 1 ≤ (if 17 ≤ counter then (0, r') else DAN1.egValue r' counter).1
      rw [if_neg (by omega)]
      exact dan1_egValue_ge_one r' counter
    exact ⟨⟨fun h0 => absurd hval (by omega), fun hgg => absurd hgg hall⟩,
      fun hgg => absurd hgg hall, fun _ => hval⟩

/-- C4 witness: the amended characterisation applied to the concrete
reader state over the bytes `0x00 0x00 0x40` (17 zero bits first). -/
theorem c4_gamma_sentinel_witness :
    (DAN1.rBitsList ⟨#[0x00, 0x00, 0x40], 0, 0, 0⟩ 16).1 = List.replicate 16 false ∧
    DAN1.readEliasGamma ⟨#[0x00, 0x00, 0x40], 0, 0, 0⟩ =
      (0, (DAN1.rBitsList ⟨#[0x00, 0x00, 0x40], 0, 0, 0⟩ 17).2) :=
  ⟨by decide, (c4_gamma_sentinel_amended ⟨#[0x00, 0x00, 0x40], 0, 0, 0⟩).2.1 (by decide)⟩

/-- C8 (amended). Compressing 300 copies of `0x55` with MDK-RLE emits
three RLE packets covering runs of 127, 127 and 46 bytes
(control bytes `0xFE`, `0xFE`, `0xAD`), summing to 6 bytes plus the EOF
marker (7 bytes total), and the result round-trips. -/
theorem c8_constant_run_amended :
    MdkRLE.compress (List.replicate 300 0x55) =
      [0xFE, 0x55, 0xFE, 0x55, 0xAD, 0x55, 0xFF] ∧
    MdkRLE.decompress [0xFE, 0x55, 0xFE, 0x55, 0xAD, 0x55, 0xFF] =
      .ok (List.replicate 300 0x55) := by
  decide




lemma bitVal (x p : Nat) : (if x &&& 2 ^ p ≠ 0 then (1 : Nat) else 0) = x / 2 ^ p % 2 := by
  have h := Nat.and_two_pow x p
  have ht : x.testBit p = decide (x / 2 ^ p % 2 = 1) := Nat.testBit_to_div_mod
  have h2p : 0 < 2 ^ p := Nat.two_pow_pos p
  by_cases hb : x.testBit p
  · have h1 : x / 2 ^ p % 2 = 1 := by
      rw [hb] at ht
      exact of_decide_eq_true ht.symm
    rw [h1, if_pos]
    rw [h, hb]
    simp
  · have h0 : x / 2 ^ p % 2 = 0 := by
      rw [Bool.eq_false_iff.mpr hb] at ht
      have := of_decide_eq_false ht.symm
      omega
    rw [h0, if_neg]
    rw [h]
    simp [hb]

lemma or_insert_bit (p hi lo a : Nat) (hlo : lo < 2 ^ p) (ha : a ≤ 1) :
    (2 ^ (p + 1) * hi + lo) ||| (a <<< p) = 2 ^ (p + 1) * hi + 2 ^ p * a + lo := by
  rw [Nat.shiftLeft_eq]
  have hlo1 : lo < 2 ^ (p + 1) := by
    have : (2:Nat) ^ (p+1) = 2 ^ p * 2 := pow_succ 2 p
    omega
  rw [Nat.mul_add_lt_is_or hlo1 hi]
  rw [Nat.lor_assoc]
  rw [Nat.lor_comm lo (a * 2 ^ p), Nat.mul_comm a (2 ^ p), ← Nat.mul_add_lt_is_or hlo a]
  have hsum : 2 ^ p * a + lo < 2 ^ (p + 1) := by
    have : (2:Nat) ^ (p+1) = 2 ^ p * 2 := pow_succ 2 p
    nlinarith
  rw [← Nat.mul_add_lt_is_or hsum hi]
  omega

lemma orchain (j : Nat) : ∀ (w : Nat) (hi lo : Nat), lo < 2 ^ 7 →
    ((posPairs j w).foldl (fun off p => off ||| ((if p.2 then 1 else 0) <<< p.1))
      (2 ^ (7 + w) * hi + lo))
      = 2 ^ (7 + w) * hi + (j / 2 ^ 7 % 2 ^ w) * 2 ^ 7 + lo := by
  intro w
  induction w with
  | zero => intro hi lo hlo; simp [posPairs]; omega
  | succ w ih =>
    intro hi lo hlo
    simp only [posPairs, List.foldl_cons, decide_eq_true_eq]
    rw [bitVal]
    have hb : j / 2 ^ (7 + w) % 2 ≤ 1 := by omega
    have hlo2 : lo < 2 ^ (7 + w) := by
      have : (2:Nat) ^ 7 ≤ 2 ^ (7 + w) := Nat.pow_le_pow_right (by norm_num) (by omega)
      omega
    rw [show (7 + (w + 1)) = (7 + w) + 1 by omega]
    rw [or_insert_bit (7 + w) hi lo _ hlo2 hb]
    rw [show 2 ^ ((7 + w) + 1) * hi + 2 ^ (7 + w) * (j / 2 ^ (7 + w) % 2) + lo
        = 2 ^ (7 + w) * (2 * hi + j / 2 ^ (7 + w) % 2) + lo by ring]
    rw [ih (2 * hi + j / 2 ^ (7 + w) % 2) lo hlo]
    have hdiv : j / 2 ^ (7 + w) = j / 2 ^ 7 / 2 ^ w := by
      rw [Nat.div_div_eq_div_mul, ← pow_add]
    have key : j / 2 ^ 7 % 2 ^ (w + 1) = j / 2 ^ 7 % 2 ^ w + 2 ^ w * (j / 2 ^ 7 / 2 ^ w % 2) := by
      rw [pow_succ]
      exact Nat.mod_mul
    rw [hdiv, key]
    have e1 : (2:Nat) ^ (7 + w) = 2 ^ 7 * 2 ^ w := by rw [pow_add]
    have e2 : (2:Nat) ^ ((7 + w) + 1) = 2 ^ 7 * 2 ^ w * 2 := by rw [pow_succ, pow_add]
    rw [e1, e2]
    ring

lemma landOr (x : Nat) : (128 ||| (x &&& 127)) &&& 127 = x % 128 := by
  have h1 : x &&& 127 = x % 128 := by
    have := Nat.and_pow_two_sub_one_eq_mod x 7
    norm_num at this
    exact this
  rw [h1]
  have h2 : (128 : Nat) ||| (x % 128) = 128 + x % 128 := by
    have := Nat.mul_add_lt_is_or (i := 7) (b := x % 128) (by omega) 1
    norm_num at this
    omega
  rw [h2]
  have h3 := Nat.and_pow_two_sub_one_eq_mod (128 + x % 128) 7
  norm_num at h3
  exact h3

lemma longOffsetRoundtrip (q j w : Nat)
    (hz : List.zip (Pletter.extraShifts q)
        ((Pletter.extraMasks q).map (fun m => decide (j &&& m ≠ 0))) = posPairs j w)
    (hj : j < 128 * 2 ^ w) :
    Pletter.readLongOffset q (Pletter.emitLongOffset q j).1 (Pletter.emitLongOffset q j).2
      = j + 129 := by
  simp only [Pletter.emitLongOffset, Pletter.readLongOffset]
  rw [hz, landOr]
  have ho := orchain j w 0 (j % 128) (by omega)
  simp only [Nat.mul_zero, Nat.zero_add] at ho
  rw [ho]
  have h7 : (0:Nat) < 2 ^ 7 := by norm_num
  have hlt : j / 2 ^ 7 < 2 ^ w := by
    rw [Nat.div_lt_iff_lt_mul h7]
    have he : (128:Nat) * 2 ^ w = 2 ^ w * 2 ^ 7 := by norm_num [Nat.mul_comm]
    exact lt_of_lt_of_eq hj he
  rw [Nat.mod_eq_of_lt hlt]
  have hdm := Nat.div_add_mod j 128
  have he2 : j / 2 ^ 7 * 2 ^ 7 = 128 * (j / 128) := by norm_num [Nat.mul_comm]
  omega

/-- C5 (amended). In Pletter's stream a long match offset (first byte
`B ≥ 128`) round-trips: for `q ∈ 1..6` and every stored value
`j < 128 · 2^k`, where `k` is the number of extra bits for this `q`
(0 for `q = 1`, and `q` bits at shifts `7..7+q-1` for `q = 2..6` — not
`q - 1` bits as the spec's table says), the decoder's reading of the
encoder's emission recovers `offset = j + 128 + 1`: the decoder adds
`128` before the final `+ 1`, so the spec's formula
`((B & 0x7F) | (extraBits << 7)) + 1` omits the `+ 128` rebase. -/
theorem c5_long_offset_amended (q j : Nat) (hq : 1 ≤ q ∧ q ≤ 6)
    (hj : j < 128 * 2 ^ (Pletter.extraMasks q).length) :
    Pletter.readLongOffset q (Pletter.emitLongOffset q j).1 (Pletter.emitLongOffset q j).2
      = j + 129 := by
  obtain ⟨h1, h2⟩ := hq
  interval_cases q
  · exact longOffsetRoundtrip 1 j 0 (by norm_num [Pletter.extraShifts, Pletter.extraMasks, posPairs])
      (by simpa [Pletter.extraMasks] using hj)
  · exact longOffsetRoundtrip 2 j 2 (by norm_num [Pletter.extraShifts, Pletter.extraMasks, posPairs])
      (by simpa [Pletter.extraMasks] using hj)
  · exact longOffsetRoundtrip 3 j 3 (by norm_num [Pletter.extraShifts, Pletter.extraMasks, posPairs])
      (by simpa [Pletter.extraMasks] using hj)
  · exact longOffsetRoundtrip 4 j 4 (by norm_num [Pletter.extraShifts, Pletter.extraMasks, posPairs])
      (by simpa [Pletter.extraMasks] using hj)
  · exact longOffsetRoundtrip 5 j 5 (by norm_num [Pletter.extraShifts, Pletter.extraMasks, posPairs])
      (by simpa [Pletter.extraMasks] using hj)
  · exact longOffsetRoundtrip 6 j 6 (by norm_num [Pletter.extraShifts, Pletter.extraMasks, posPairs])
      (by simpa [Pletter.extraMasks] using hj)

/-- C5 (counterexample to the spec's formula). For `q = 1`, `j = 0` the
encoder emits byte `B = 128` with no extra bits; the decoder reads
offset `129`, but the spec's formula `((B & 0x7F) | (extraBits << 7)) + 1`
gives `1`. -/
theorem c5_claim_formula_counterexample :
    Pletter.emitLongOffset 1 0 = (128, []) ∧
    Pletter.readLongOffset 1 128 [] = 129 ∧
    Pletter.claimLongOffset 128 0 = 1 ∧ (129 : Nat) ≠ 1 := by decide

/-- C5 witness: the amended round-trip at `q = 2`, `j = 300`. -/
theorem c5_long_offset_witness :
    (1 ≤ 2 ∧ 2 ≤ 6) ∧ 300 < 128 * 2 ^ (Pletter.extraMasks 2).length ∧
    Pletter.readLongOffset 2 (Pletter.emitLongOffset 2 300).1
      (Pletter.emitLongOffset 2 300).2 = 300 + 129 :=
  ⟨⟨by decide, by decide⟩, by decide,
    c5_long_offset_amended 2 300 ⟨by decide, by decide⟩ (by decide)⟩

lemma size_setAt (a : Array Nat) (i v : Nat) : (BitBuster.setAt a i v).size = a.size := by
  unfold BitBuster.setAt
  split
  · simp
  · rfl

lemma size_bbCopy : ∀ (len : Nat) (out : Array Nat) (i ref : Nat),
    (BitBuster.bbCopy out i ref len).size = out.size
  | 0, _, _, _ => rfl
  | len + 1, out, i, ref => by
    simp only [BitBuster.bbCopy]
    rw [size_bbCopy len]
    exact size_setAt out i _

lemma decodeLoop_size (outLen : Nat) : ∀ (fuel i : Nat) (r : BitBuster.BR)
    (out res : Array Nat),
    BitBuster.decodeLoop outLen i fuel r out = .ok res → res.size = out.size := by
  intro fuel
  induction fuel with
  | zero =>
    intro i r out res h
    simp only [BitBuster.decodeLoop] at h
    injection h with h'
    rw [h']
  | succ fuel ih =>
    intro i r out res h
    simp only [BitBuster.decodeLoop, bind, Except.bind, pure, Except.pure] at h
    repeat' split at h
    all_goals try exact Except.noConfusion h
    all_goals try (injection h with h'; rw [h'])
    all_goals try (rw [ih _ _ _ _ h, size_bbCopy])
    all_goals try (rw [ih _ _ _ _ h, size_setAt])

/-- C10. Whenever `BitBusterV12Codec.decompress` returns, the length of
its output equals the 32-bit little-endian value stored in the 4-byte
header: the output array is preallocated to that size, every store and
match copy preserves it, and an early exit (EOF sentinel or loop end)
returns the same array. -/
theorem c10_output_length_is_header (bytes res : List Nat)
    (h : BitBuster.decompress bytes = .ok res) :
    res.length = BitBuster.headerLen bytes := by
  simp only [BitBuster.decompress, bind, Except.bind, pure, Except.pure] at h
  repeat' split at h
  · exact Except.noConfusion h
  all_goals rename_i hdl
  · exact Except.noConfusion h
  · injection h with h'
    rw [← h']
    simp only [Array.length_toList]
    rw [decodeLoop_size _ _ _ _ _ _ hdl]
    simp

/-- C10 witness: a concrete compressed stream for the single byte `65`. -/
theorem c10_output_length_witness :
    BitBuster.decompress [1, 0, 0, 0, 127, 65, 0, 255, 192] = .ok [65] ∧
    ([65] : List Nat).length = BitBuster.headerLen [1, 0, 0, 0, 127, 65, 0, 255, 192] :=
  ⟨by decide, c10_output_length_is_header _ [65] (by decide)⟩

def foldMin (f : Nat → Nat) (l : List Nat) (st : Nat × Nat) : Nat × Nat :=
  l.foldl (fun st i => if f i < st.1 then (f i, i) else st) st

lemma getD_setD_self {α : Type} (a : Array α) (i : Nat) (v d : α) (h : i < a.size) :
    (a.setD i v).getD i d = v := by
  simp [Array.setD, Array.getD, h]

lemma getD_setD_ne {α : Type} (a : Array α) (i k : Nat) (v d : α) (h : k ≠ i) :
    (a.setD i v).getD k d = a.getD k d := by
  simp only [Array.setD]
  split
  · rename_i hi
    simp only [Array.getD, Array.size_set]
    split
    · rename_i hk
      exact Array.get_set_ne a ⟨i, hi⟩ v hk (by simpa using Ne.symm h)
    · rfl
  · rfl

lemma setD_oob {α : Type} (a : Array α) (i : Nat) (v : α) (h : ¬ i < a.size) :
    a.setD i v = a := by
  simp [Array.setD, h]

lemma getD_mkArray {α : Type} (m k : Nat) (x : α) : (Array.mkArray m x).getD k x = x := by
  simp only [Array.getD]
  split
  · simp
  · rfl

lemma scanLens_le (parr : Array Pletter.P) (i ccc mode : Nat) :
    ∀ (j : Nat) (best : Nat × Nat × Nat), (Pletter.scanLens parr i ccc mode j best).1 ≤ best.1
  | 0, _ => le_refl _
  | 1, _ => le_refl _
  | j + 2, best => by
    simp only [Pletter.scanLens]
    refine le_trans (scanLens_le parr i ccc mode (j + 1) _) ?_
    split
    · rename_i hlt
      exact le_of_lt hlt
    · exact le_refl _

lemma getLen_fold_inv (cols0 colsQ : Array (Nat × Nat)) (q n : Nat) :
    ∀ (L : List Nat) (A : Array Pletter.P), (∀ i ∈ L, i < n) →
      (∀ k, (A.getD k default).cost ≤ 9 * (n - k)) →
      ∀ k, ((L.foldl
        (fun parr i =>
          let kc := 9 + (parr.getD (i + 1) default).cost
          let best := Pletter.scanLens parr i 9 1 (cols0.getD i (0, 0)).1 (kc, 0, 0)
          let ccc := if q = 1 then 9 else 9 + q
          let best := Pletter.scanLens parr i ccc 2 (colsQ.getD i (0, 0)).1 best
          parr.setD i ⟨best.1, best.2.1, best.2.2⟩)
        A).getD k default).cost ≤ 9 * (n - k) := by
  intro L
  induction L with
  | nil => intro A _ hInv k; exact hInv k
  | cons i L ih =>
    intro A hmem hInv k
    simp only [List.foldl_cons]
    refine ih _ (fun i' hi' => hmem i' (List.mem_cons_of_mem _ hi')) ?_ k
    intro k'
    by_cases hk : k' = i
    · subst hk
      by_cases hsz : k' < A.size
      · rw [getD_setD_self _ _ _ _ hsz]
        dsimp only
        have h2 := scanLens_le A k'
          (if q = 1 then 9 else 9 + q) 2 (colsQ.getD k' (0, 0)).1
          (Pletter.scanLens A k' 9 1 (cols0.getD k' (0, 0)).1
            (9 + (A.getD (k' + 1) default).cost, 0, 0))
        have h1 := scanLens_le A k' 9 1 (cols0.getD k' (0, 0)).1
          (9 + (A.getD (k' + 1) default).cost, 0, 0)
        have h3 := hInv (k' + 1)
        have hi : k' < n := hmem k' (List.mem_cons_self _ _)
        simp only at h1 h2
        omega
      · rw [setD_oob _ _ _ hsz]
        exact hInv k'
    · rw [getD_setD_ne _ _ _ _ _ hk]
      exact hInv k'

lemma qCost_le (data : List Nat) (q : Nat) : Pletter.qCost data q ≤ 9 * data.length := by
  have h := getLen_fold_inv ((Pletter.createMetadata data.toArray).getD 0 #[])
    ((Pletter.createMetadata data.toArray).getD q #[]) q data.toArray.size
    (List.range data.toArray.size).reverse
    (Array.mkArray (data.toArray.size + 1) default)
    (fun i hi => List.mem_range.mp (List.mem_reverse.mp hi))
    (fun k => by rw [getD_mkArray]; exact Nat.zero_le _)
    0
  have hsz : 9 * (data.toArray.size - 0) = 9 * data.length := by simp
  rw [← hsz]
  exact h

lemma foldMin_cons (f : Nat → Nat) (i : Nat) (l : List Nat) (st : Nat × Nat) :
    foldMin f (i :: l) st = foldMin f l (if f i < st.1 then (f i, i) else st) := rfl

lemma foldMin_le_init (f : Nat → Nat) : ∀ (l : List Nat) (st : Nat × Nat),
    (foldMin f l st).1 ≤ st.1
  | [], _ => le_refl _
  | i :: l, st => by
    rw [foldMin_cons]
    refine le_trans (foldMin_le_init f l _) ?_
    split
    · rename_i hlt
      exact le_of_lt hlt
    · exact le_refl _

lemma foldMin_le_mem (f : Nat → Nat) : ∀ (l : List Nat) (st : Nat × Nat) (q : Nat),
    q ∈ l → (foldMin f l st).1 ≤ f q
  | i :: l, st, q, hq => by
    rcases List.mem_cons.mp hq with h | h
    · subst h
      rw [foldMin_cons]
      refine le_trans (foldMin_le_init f l _) ?_
      split
      · exact le_refl _
      · rename_i hlt
        exact le_of_not_lt hlt
    · rw [foldMin_cons]
      exact foldMin_le_mem f l _ q h

lemma foldMin_achieved (f : Nat → Nat) : ∀ (l : List Nat) (st : Nat × Nat),
    foldMin f l st = st ∨
      ((foldMin f l st).2 ∈ l ∧ (foldMin f l st).1 = f (foldMin f l st).2)
  | [], _ => Or.inl rfl
  | i :: l, st => by
    rw [foldMin_cons]
    rcases foldMin_achieved f l (if f i < st.1 then (f i, i) else st) with h | ⟨hm, he⟩
    · rw [h]
      by_cases hf : f i < st.1
      · rw [if_pos hf]
        exact Or.inr ⟨List.mem_cons_self _ _, rfl⟩
      · rw [if_neg hf]
        exact Or.inl rfl
    · exact Or.inr ⟨List.mem_cons_of_mem _ hm, he⟩

lemma chooseQ_spec (data : List Nat) (h0 : 0 < data.length) :
    (1 ≤ Pletter.chooseQ data ∧ Pletter.chooseQ data ≤ 6) ∧
    ∀ q, 1 ≤ q → q ≤ 6 →
      Pletter.qCost data (Pletter.chooseQ data) ≤ Pletter.qCost data q := by
  have hch : Pletter.chooseQ data =
      (if (foldMin (fun i => (Pletter.getLen data.toArray
            (Pletter.createMetadata data.toArray) i).1)
          (List.range' 1 6) (data.length * 1000, 0)).2 = 0 ∧ 0 < data.length then 1
       else (foldMin (fun i => (Pletter.getLen data.toArray
            (Pletter.createMetadata data.toArray) i).1)
          (List.range' 1 6) (data.length * 1000, 0)).2) := rfl
  have h1le : Pletter.qCost data 1 ≤ 9 * data.length := qCost_le data 1
  have hmem1 : (1 : Nat) ∈ List.range' 1 6 := by decide
  have hlt : (foldMin (fun i => (Pletter.getLen data.toArray
        (Pletter.createMetadata data.toArray) i).1)
      (List.range' 1 6) (data.length * 1000, 0)).1 < data.length * 1000 := by
    refine lt_of_le_of_lt (foldMin_le_mem _ _ _ 1 hmem1) ?_
    have : Pletter.qCost data 1 = (Pletter.getLen data.toArray
        (Pletter.createMetadata data.toArray) 1).1 := rfl
    omega
  rcases foldMin_achieved (fun i => (Pletter.getLen data.toArray
      (Pletter.createMetadata data.toArray) i).1)
      (List.range' 1 6) (data.length * 1000, 0) with h | ⟨hm, he⟩
  · rw [h] at hlt
    exact absurd hlt (lt_irrefl _)
  · have hb := List.mem_range'_1.mp hm
    have hne : ¬((foldMin (fun i => (Pletter.getLen data.toArray
          (Pletter.createMetadata data.toArray) i).1)
        (List.range' 1 6) (data.length * 1000, 0)).2 = 0 ∧ 0 < data.length) := by
      intro hc
      omega
    rw [hch, if_neg hne]
    refine ⟨⟨hb.1, by omega⟩, ?_⟩
    intro q hq1 hq6
    have hqm : q ∈ List.range' 1 6 := List.mem_range'_1.mpr ⟨hq1, by omega⟩
    have hle := foldMin_le_mem (fun i => (Pletter.getLen data.toArray
        (Pletter.createMetadata data.toArray) i).1)
      (List.range' 1 6) (data.length * 1000, 0) q hqm
    show (Pletter.getLen data.toArray (Pletter.createMetadata data.toArray) _).1
      ≤ (Pletter.getLen data.toArray (Pletter.createMetadata data.toArray) q).1
    rw [← he]
    exact hle

/-- C6. For every non-empty input within Pletter's 64KB limit, the
encoder's chosen `q` lies in `1..6`, its total DP cost (`getLen`'s
`p[0].cost`) is minimal among `q ∈ 1..6`, `compress` emits with exactly
that `q`, and the decoder's `q = 7` long-offset path exists (a concrete
`q = 7` offset decodes) though the encoder never selects it. -/
theorem c6_q_search_minimal (data : List Nat) (h0 : data ≠ [])
    (hlen : data.length ≤ 65536) :
    (1 ≤ Pletter.chooseQ data ∧ Pletter.chooseQ data ≤ 6) ∧
    (∀ q, 1 ≤ q → q ≤ 6 →
      Pletter.qCost data (Pletter.chooseQ data) ≤ Pletter.qCost data q) ∧
    Pletter.compress data = .ok (Pletter.save data.toArray
      (Pletter.createMetadata data.toArray)
      (Pletter.getLen data.toArray (Pletter.createMetadata data.toArray)
        (Pletter.chooseQ data)).2 (Pletter.chooseQ data)).toList ∧
    Pletter.readLongOffset 7 255 [true, true, true, true, true, true, true] = 16512 := by
  have hn : 0 < data.length := List.length_pos.mpr h0
  obtain ⟨hrange, hmin⟩ := chooseQ_spec data hn
  refine ⟨hrange, hmin, ?_, by decide⟩
  unfold Pletter.compress
  rw [if_neg (by omega), if_neg (by omega)]

/-- C6 witness: the q-search property at the concrete input `[0, 1]`. -/
theorem c6_q_search_witness :
    (1 ≤ Pletter.chooseQ [0, 1] ∧ Pletter.chooseQ [0, 1] ≤ 6) ∧
    (∀ q, 1 ≤ q → q ≤ 6 →
      Pletter.qCost [0, 1] (Pletter.chooseQ [0, 1]) ≤ Pletter.qCost [0, 1] q) ∧
    Pletter.compress [0, 1] = .ok (Pletter.save (List.toArray [0, 1])
      (Pletter.createMetadata (List.toArray [0, 1]))
      (Pletter.getLen (List.toArray [0, 1]) (Pletter.createMetadata (List.toArray [0, 1]))
        (Pletter.chooseQ [0, 1])).2 (Pletter.chooseQ [0, 1])).toList ∧
    Pletter.readLongOffset 7 255 [true, true, true, true, true, true, true] = 16512 :=
  c6_q_search_minimal [0, 1] (by decide) (by decide)

lemma zxShape_wBit (w w' : ZX0.W0) (v v' : Bool) (h : zxShape w = zxShape w') :
    zxShape (ZX0.wBit w v) = zxShape (ZX0.wBit w' v') := by
  obtain ⟨out, bm, bi, bt⟩ := w
  obtain ⟨out', bm', bi', bt'⟩ := w'
  simp only [zxShape, Prod.mk.injEq] at h
  obtain ⟨hs, hm, hb, ht⟩ := h
  subst hm hb ht
  simp only [ZX0.wBit]
  split_ifs <;>
    simp_all [zxShape, Array.size_setD, Array.size_push]

lemma zxShape_wByte (w w' : ZX0.W0) (v v' : Nat) (h : zxShape w = zxShape w') :
    zxShape (ZX0.wByte w v) = zxShape (ZX0.wByte w' v') := by
  obtain ⟨out, bm, bi, bt⟩ := w
  obtain ⟨out', bm', bi', bt'⟩ := w'
  simp only [zxShape, Prod.mk.injEq] at h
  simp_all [ZX0.wByte, zxShape, Array.size_push]

lemma zxShape_gammaLoop (v : Nat) (bw inv bw' inv' : Bool) :
    ∀ (fuel i : Nat) (w w' : ZX0.W0), zxShape w = zxShape w' →
      zxShape (ZX0.gammaLoop v bw inv i w fuel) = zxShape (ZX0.gammaLoop v bw' inv' i w' fuel)
  | 0, _, _, _, h => h
  | fuel + 1, i, w, w', h => by
    simp only [ZX0.gammaLoop]
    split
    · exact h
    · exact zxShape_gammaLoop v bw inv bw' inv' fuel (i / 2) _ _
        (zxShape_wBit _ _ _ _ (zxShape_wBit _ _ _ _ h))

lemma zxShape_wieg (value : Nat) (bw inv bw' inv' : Bool) (w w' : ZX0.W0)
    (h : zxShape w = zxShape w') :
    zxShape (ZX0.writeInterlacedEliasGamma w value bw inv) =
      zxShape (ZX0.writeInterlacedEliasGamma w' value bw' inv') := by
  simp only [ZX0.writeInterlacedEliasGamma]
  exact zxShape_wBit _ _ _ _ (zxShape_gammaLoop value bw inv bw' inv' 40 _ _ _ h)

lemma zxShape_litFold (input : Array Nat) (n : Nat) :
    ∀ (l : List Nat) (w w' : ZX0.W0) (ii : Nat), zxShape w = zxShape w' →
      zxShape ((l.foldl (fun (st : ZX0.W0 × Nat) _ =>
          (ZX0.wByte st.1 (input.getD st.2 0), st.2 + 1)) (w, ii)).1) =
        zxShape ((l.foldl (fun (st : ZX0.W0 × Nat) _ =>
          (ZX0.wByte st.1 (input.getD st.2 0), st.2 + 1)) (w', ii)).1) ∧
      ((l.foldl (fun (st : ZX0.W0 × Nat) _ =>
          (ZX0.wByte st.1 (input.getD st.2 0), st.2 + 1)) (w, ii)).2) =
        ((l.foldl (fun (st : ZX0.W0 × Nat) _ =>
          (ZX0.wByte st.1 (input.getD st.2 0), st.2 + 1)) (w', ii)).2)
  | [], _, _, _, h => ⟨h, rfl⟩
  | _ :: l, w, w', ii, h => by
    simp only [List.foldl_cons]
    exact zxShape_litFold input n l _ _ (ii + 1) (zxShape_wByte _ _ _ _ h)

lemma emitStep_shape (input : Array Nat) (bw inv bw' inv' : Bool)
    (pair : (Int × Int × Nat) × (Int × Int × Nat)) (st st' : ZX0.W0 × Nat × Nat)
    (hS : zxShape st.1 = zxShape st'.1) (h2 : st.2 = st'.2) :
    zxShape (ZX0.emitStep input bw inv st pair).1 =
      zxShape (ZX0.emitStep input bw' inv' st' pair).1 ∧
    (ZX0.emitStep input bw inv st pair).2 = (ZX0.emitStep input bw' inv' st' pair).2 := by
  obtain ⟨w, ii, lo⟩ := st
  obtain ⟨w', ii', lo'⟩ := st'
  simp only at hS
  obtain ⟨hii, hlo⟩ : ii = ii' ∧ lo = lo' := by
    simpa using h2
  subst hii hlo
  obtain ⟨prev, cur⟩ := pair
  simp only [ZX0.emitStep]
  split
  · have hw := zxShape_wieg ((cur.2.1 - prev.2.1).toNat) bw false bw' false _ _
      (zxShape_wBit _ _ false false hS)
    have hf := zxShape_litFold input 0 (List.range (cur.2.1 - prev.2.1).toNat) _ _ ii hw
    refine ⟨hf.1, ?_⟩
    simp only [Prod.mk.injEq]
    exact ⟨hf.2, trivial⟩
  · split
    · exact ⟨zxShape_wieg _ bw false bw' false _ _ (zxShape_wBit _ _ false false hS), rfl⟩
    · refine ⟨?_, rfl⟩
      have h1 := zxShape_wBit _ _ true true hS
      have h2 := zxShape_wieg ((cur.2.2 - 1) / 128 + 1) bw inv bw' inv' _ _ h1
      have h3 := zxShape_wByte _ _ (if bw then ((cur.2.2 - 1) % 128) <<< 1
        else (127 - (cur.2.2 - 1) % 128) <<< 1) (if bw' then ((cur.2.2 - 1) % 128) <<< 1
        else (127 - (cur.2.2 - 1) % 128) <<< 1) h2
      have h4 : zxShape { ZX0.wByte (ZX0.writeInterlacedEliasGamma (ZX0.wBit w true)
          ((cur.2.2 - 1) / 128 + 1) bw inv) (if bw then ((cur.2.2 - 1) % 128) <<< 1
            else (127 - (cur.2.2 - 1) % 128) <<< 1) with backtrack := true } =
          zxShape { ZX0.wByte (ZX0.writeInterlacedEliasGamma (ZX0.wBit w' true)
          ((cur.2.2 - 1) / 128 + 1) bw' inv') (if bw' then ((cur.2.2 - 1) % 128) <<< 1
            else (127 - (cur.2.2 - 1) % 128) <<< 1) with backtrack := true } := by
        simp only [zxShape, Prod.mk.injEq] at h3 ⊢
        exact ⟨h3.1, h3.2.1, h3.2.2.1, trivial⟩
      exact zxShape_wieg ((cur.2.1 - prev.2.1).toNat - 1) bw false bw' false _ _ h4

lemma emitFold_shape (input : Array Nat) (bw inv bw' inv' : Bool) :
    ∀ (steps : List ((Int × Int × Nat) × (Int × Int × Nat))) (st st' : ZX0.W0 × Nat × Nat),
      zxShape st.1 = zxShape st'.1 → st.2 = st'.2 →
      zxShape ((steps.foldl (ZX0.emitStep input bw inv) st).1) =
        zxShape ((steps.foldl (ZX0.emitStep input bw' inv') st').1) ∧
      (steps.foldl (ZX0.emitStep input bw inv) st).2 =
        (steps.foldl (ZX0.emitStep input bw' inv') st').2
  | [], _, _, hS, h2 => ⟨hS, h2⟩
  | p :: steps, st, st', hS, h2 => by
    simp only [List.foldl_cons]
    obtain ⟨hS', h2'⟩ := emitStep_shape input bw inv bw' inv' p st st' hS h2
    exact emitFold_shape input bw inv bw' inv' steps _ _ hS' h2'

lemma compressOptimal_size (optimal : ZX0.Block) (input : Array Nat) (skip : Nat)
    (bw inv bw' inv' : Bool) :
    (ZX0.compressOptimal optimal input skip bw inv).size =
      (ZX0.compressOptimal optimal input skip bw' inv').size := by
  simp only [ZX0.compressOptimal]
  obtain ⟨hS, h2⟩ := emitFold_shape input bw inv bw' inv'
    (((ZX0.chainList optimal).reverse).zip ((ZX0.chainList optimal).reverse).tail)
    (⟨#[], 0, 0, true⟩, skip, 1) (⟨#[], 0, 0, true⟩, skip, 1) rfl rfl
  have h := zxShape_wieg 256 bw inv bw' inv' _ _ (zxShape_wBit _ _ true true hS)
  simp only [zxShape, Prod.mk.injEq] at h
  exact h.1
/-- C9 (amended). For every non-empty `x` on which ZX0's backwards
compression succeeds, the output is the byte-reversal of
`compressOptimal` run on the byte-reversed input, the classic-mode
`compress` of the reversed input runs the same optimizer and emitter
with the inversion flags cleared, and both emissions have the same
length (the bit-layout shape is independent of the flag-controlled bit
values). Full byte equality under only the documented inversion rules
fails: see the counterexample, where the backwards new-offset LSB byte
is `((offset-1)%128)<<1` instead of the classic complemented form. -/
theorem c9_backwards_symmetry_amended (x res : List Nat) (h0 : x ≠ [])
    (h : ZX0.compress x { backwards := true } = .ok res) :
    ∃ optimal, ZX0.optimize x.reverse.toArray 0 32640 = some optimal ∧
      res = (ZX0.compressOptimal optimal x.reverse.toArray 0 true false).toList.reverse ∧
      ZX0.compress x.reverse { classic := true } =
        .ok (ZX0.compressOptimal optimal x.reverse.toArray 0 false false).toList ∧
      res.length = (ZX0.compressOptimal optimal x.reverse.toArray 0 false false).toList.length := by
  have hx : ¬(x.length = 0) := by simpa using h0
  have hxr : ¬(x.reverse.length = 0) := by simpa using h0
  simp only [ZX0.compress] at h
  rw [if_neg hx] at h
  simp only [if_true, Bool.false_eq_true, if_false, decide_not, not_true, decide_False,
    Bool.and_false, Bool.false_and] at h
  rcases hopt : ZX0.optimize x.reverse.toArray 0 32640 with _ | optimal
  · rw [hopt] at h
    exact Except.noConfusion h
  · rw [hopt] at h
    injection h with h'
    refine ⟨optimal, rfl, h'.symm, ?_, ?_⟩
    · simp only [ZX0.compress]
      rw [if_neg hxr]
      simp only [Bool.false_eq_true, if_false]
      rw [hopt]
      rfl
    · rw [← h']
      simp only [List.length_reverse, Array.length_toList]
      exact compressOptimal_size optimal x.reverse.toArray 0 true false false false



lemma zx0_compress_backwards_eq (x : List Nat) (h0 : ¬(x.length = 0)) (B : ZX0.Block)
    (hopt : ZX0.optimize x.reverse.toArray 0 32640 = some B) :
    ZX0.compress x { backwards := true } =
      .ok (ZX0.compressOptimal B x.reverse.toArray 0 true false).toList.reverse := by
  simp only [ZX0.compress]
  rw [if_neg h0]
  simp only [if_true, Bool.false_eq_true, if_false, decide_not, not_true, decide_False,
    Bool.and_false, Bool.false_and]
  rw [hopt]
  rfl

lemma zx0_claim_backwards_eq (x : List Nat) (h0 : ¬(x.length = 0)) (B : ZX0.Block)
    (hopt : ZX0.optimize x.reverse.toArray 0 32640 = some B) :
    ZX0.claimBackwardsCompress x =
      .ok ((ZX0.writeInterlacedEliasGamma (ZX0.wBit
        ((((ZX0.chainList B).reverse).zip ((ZX0.chainList B).reverse).tail).foldl
          (ZX0.claimEmitStep x.reverse.toArray) (⟨#[], 0, 0, true⟩, 0, 1)).1 true)
        256 true false).out.toList.reverse) := by
  simp only [ZX0.claimBackwardsCompress]
  rw [if_neg h0, hopt]

set_option maxHeartbeats 2000000 in
/-- C9 (counterexample to the spec's equality): on `[7,8,7,8]`, the
backwards compression and the spec-modelled
`reverse(compress(reverse(x), classic))` with only the documented
continuation-bit flip applied differ in the new-offset LSB byte
(`2` vs the classic complemented `252`). -/
theorem c9_backwards_lsb_counterexample :
    ZX0.compress [7, 8, 7, 8] { backwards := true } = .ok [168, 170, 2, 7, 8, 150] ∧
    ZX0.claimBackwardsCompress [7, 8, 7, 8] = .ok [168, 170, 252, 7, 8, 150] ∧
    (Except.ok [168, 170, 2, 7, 8, 150] : Except CodecError (List Nat)) ≠
      .ok [168, 170, 252, 7, 8, 150] := by
  have hopt : (ZX0.optimize (List.reverse [7, 8, 7, 8]).toArray 0 32640).map ZX0.chainList
      = some [(29, 3, 2), (19, 1, 0), (-1, -1, 1)] := by decide
  rcases hB : ZX0.optimize (List.reverse [7, 8, 7, 8]).toArray 0 32640 with _ | B
  · rw [hB] at hopt
    simp at hopt
  · rw [hB] at hopt
    have hcl : ZX0.chainList B = [(29, 3, 2), (19, 1, 0), (-1, -1, 1)] := by
      simpa using hopt
    refine ⟨?_, ?_, by decide⟩
    · rw [zx0_compress_backwards_eq [7, 8, 7, 8] (by decide) B hB]
      simp only [ZX0.compressOptimal, hcl]
      decide
    · rw [zx0_claim_backwards_eq [7, 8, 7, 8] (by decide) B hB]
      rw [hcl]
      decide

/-- C9 witness: the amended decomposition at the concrete input `[1, 2]`. -/
theorem c9_backwards_symmetry_witness :
    ∃ optimal, ZX0.optimize ([1, 2] : List Nat).reverse.toArray 0 32640 = some optimal ∧
      ([160, 170, 1, 2, 154] : List Nat) =
        (ZX0.compressOptimal optimal ([1, 2] : List Nat).reverse.toArray 0
          true false).toList.reverse ∧
      ZX0.compress ([1, 2] : List Nat).reverse { classic := true } =
        .ok (ZX0.compressOptimal optimal ([1, 2] : List Nat).reverse.toArray 0
          false false).toList ∧
      ([160, 170, 1, 2, 154] : List Nat).length =
        (ZX0.compressOptimal optimal ([1, 2] : List Nat).reverse.toArray 0
          false false).toList.length :=
  c9_backwards_symmetry_amended [1, 2] [160, 170, 1, 2, 154] (by decide) (by decide)
